import Mathlib

/-!
# Fersca/restclient: mock registry, response cache, pool registry and request executor

A shallow embedding of `restclient.go`.  Go values are embedded as follows.

* `string` is `String`; the helpers of package `strings` work on the character list.
* `map[string]T` is `GoMap T`: `none` is the nil map, `some l` a map whose
  entries are the association list `l` (a key is looked up at its first occurrence).
* A function that can panic returns `Except Panic _`.
* Pointers to `Response` that may be nil are `Option Response`.
* The collaborators that live outside the repository (package `regexp`,
  `net/http`, the clock, the iteration order of a Go map, the LRU cache library)
  are either parameters collected in `Env` or small models with a doc comment
  that says what they stand for.
-/

namespace Restclient

/-! ## Go runtime values -/

/-- Run-time panics the embedded functions can raise. -/
inductive Panic where
  | indexOutOfRange
  | nilDereference
  | typeAssertion
  | regexpCompile
  deriving DecidableEq, Repr

instance instDecidableEqExcept {ε α : Type} [DecidableEq ε] [DecidableEq α] :
    DecidableEq (Except ε α) := fun a b =>
  match a, b with
  | .ok x, .ok y => if h : x = y then isTrue (by rw [h]) else isFalse (fun e => h (by cases e; rfl))
  | .error x, .error y =>
    if h : x = y then isTrue (by rw [h]) else isFalse (fun e => h (by cases e; rfl))
  | .ok _, .error _ => isFalse (fun e => by cases e)
  | .error _, .ok _ => isFalse (fun e => by cases e)

/-- Go `map[string]T`; `none` is the nil map. -/
abbrev GoMap (α : Type) := Option (List (String × α))

/-- Association-list lookup: the value at the first occurrence of the key. -/
def assocLookup {α : Type} (k : String) : List (String × α) → Option α
  | [] => none
  | (k', v) :: rest => if k' = k then some v else assocLookup k rest

/-- The Go expression `v, ok := m[k]`; reading a nil map finds nothing. -/
def GoMap.lookup {α : Type} (m : GoMap α) (k : String) : Option α :=
  match m with
  | none => none
  | some l => assocLookup k l

/-- The Go expression `len(m)`; a nil map has length 0. -/
def GoMap.len {α : Type} (m : GoMap α) : Nat :=
  match m with
  | none => 0
  | some l => l.length

/-- The Go statement `m[k] = v` on an association list: overwrite the entry
of the key when there is one, add an entry otherwise. -/
def assocInsert {α : Type} (k : String) (v : α) : List (String × α) → List (String × α)
  | [] => [(k, v)]
  | (k', v') :: rest => if k' = k then (k, v) :: rest else (k', v') :: assocInsert k v rest

/-! ## Data model (`restclient.go`, lines 23-76) -/

/-- The Go struct `Response`. -/
structure Response where
  Body : String
  Code : Int
  Headers : GoMap (List String)
  CachedContent : Bool
  Staled : Bool
  deriving DecidableEq, Repr

/-- The Go struct `Header`. -/
structure Header where
  Key : String
  Value : String
  deriving DecidableEq, Repr

/-- The Go struct `cacheElement`; `Expires` is an instant in nanoseconds. -/
structure cacheElement where
  Content : String
  Headers : GoMap (List String)
  Expires : Int
  deriving DecidableEq, Repr

/-- The Go struct `mockResponse`. -/
structure mockResponse where
  URL : String
  Regexp : Bool
  Method : String
  Response : Response
  Headers : GoMap String
  Body : String
  deriving DecidableEq, Repr

/-! ## Header utilities -/

/-- The loop of `sameHeaders` (lines 438-451): every entry of `h1` must be in `h2`
with the same value. -/
def sameHeadersLoop (h2 : List (String × String)) : List (String × String) → Bool
  | [] => true
  | (key, value) :: rest =>
    match assocLookup key h2 with
    | none => false
    | some val => if val ≠ value then false else sameHeadersLoop h2 rest

/-- The Go function `sameHeaders` (lines 421-455). -/
def sameHeaders (h1 h2 : GoMap String) : Bool :=
  match h1, h2 with
  | none, none => true
  | none, some _ => false
  | some _, none => false
  | some l1, some l2 =>
    if l1.length ≠ l2.length then false else sameHeadersLoop l2 l1

/-- The Go function `getHeadersMap` (lines 513-521): the map is always non-nil,
and a later header overwrites an earlier one with the same key. -/
def getHeadersMap (headers : List Header) : GoMap String :=
  some (headers.foldl (fun m h => assocInsert h.Key h.Value m) [])

/-! ## Mock registry -/

/-- The test `mached && mock.Method == method && sameHeaders(headers, mock.Headers)
&& body == mock.Body` of `searchMockCall` (lines 528-534).  `regexpMatch pattern s`
is `regexp.MatchString(pattern, s)`: `none` when the pattern does not compile, in
which case the Go call returns `false` together with an error the code discards. -/
def mockMatches (regexpMatch : String → String → Option Bool)
    (method callURL : String) (headers : GoMap String) (body : String)
    (mock : mockResponse) : Bool :=
  let mached : Bool :=
    if mock.Regexp then (regexpMatch mock.URL callURL).getD false
    else decide (mock.URL = callURL)
  mached && decide (mock.Method = method) && sameHeaders headers mock.Headers
    && decide (body = mock.Body)

/-- The Go function `searchMockCall` (lines 524-540) over the mock list. -/
def searchMockCall (regexpMatch : String → String → Option Bool)
    (mocks : List mockResponse) (method callURL : String) (headers : GoMap String)
    (body : String) : Option Response :=
  match mocks with
  | [] => none
  | mock :: rest =>
    if mockMatches regexpMatch method callURL headers body mock then some mock.Response
    else searchMockCall regexpMatch rest method callURL headers body

/-! ## Package `strings` and `strconv` -/

/-- The Go call `strings.Contains(s, sub)` on character lists. -/
def containsChars (sub : List Char) : List Char → Bool
  | [] => sub.isEmpty
  | c :: rest => sub.isPrefixOf (c :: rest) || containsChars sub rest

/-- The Go call `strings.Contains(s, sub)`. -/
def stringsContains (s sub : String) : Bool :=
  containsChars sub.data s.data

/-- The Go call `strings.ToLower(s)`, on the ASCII letters.  The only use is the test
`strings.Contains(strings.ToLower(value), "max-age")`, and no character outside
ASCII lowers to one of the letters of `max-age`. -/
def stringsToLower (s : String) : String :=
  String.mk (s.data.map Char.toLower)

/-- The Go call `strings.Split(s, string(sep))` for a separator of one character:
the pieces between the occurrences of `sep`; there is always at least one piece. -/
def splitChars (sep : Char) : List Char → List (List Char)
  | [] => [[]]
  | c :: rest =>
    if c = sep then [] :: splitChars sep rest
    else
      match splitChars sep rest with
      | [] => [[c]]
      | piece :: pieces => (c :: piece) :: pieces

/-- The Go call `strings.Split(s, string(sep))`. -/
def stringsSplit (s : String) (sep : Char) : List String :=
  (splitChars sep s.data).map String.mk

/-- The errors of `strconv.Atoi`. -/
inductive NumError where
  | errSyntax
  | errRange
  deriving DecidableEq, Repr

/-- The value of a decimal digit, `none` for any other character. -/
def digitValue (c : Char) : Option Nat :=
  if 48 ≤ c.toNat ∧ c.toNat ≤ 57 then some (c.toNat - 48) else none

/-- The digit loop of `strconv.ParseUint(s, 10, 64)`: the first character that is
not a digit is a syntax error, and the loop stops with a range error as soon as
the value leaves 64 bits. -/
def parseDigits : List Char → Nat → Except NumError Nat
  | [], n => .ok n
  | c :: rest, n =>
    match digitValue c with
    | none => .error .errSyntax
    | some d => if n * 10 + d ≥ 2 ^ 64 then .error .errRange else parseDigits rest (n * 10 + d)

/-- The numeral of `strconv.Atoi` without its optional sign. -/
def stripSign : List Char → List Char
  | '+' :: rest => rest
  | '-' :: rest => rest
  | s => s

/-- The Go call `strconv.Atoi(s)` on a 64-bit platform, as the pair (value, error):
an optional sign followed by one or more decimal digits.  A syntax error gives
the value 0; a value outside `int` gives the nearest bound of `int` together
with a range error. -/
def atoiChars (s : List Char) : Int × Option NumError :=
  let neg : Bool := s.head? = some '-'
  if (stripSign s).isEmpty then (0, some .errSyntax)
  else
    match parseDigits (stripSign s) 0 with
    | .error .errSyntax => (0, some .errSyntax)
    | .error .errRange => (if neg then -(2 ^ 63 : Int) else 2 ^ 63 - 1, some .errRange)
    | .ok un =>
      if ¬ neg ∧ un ≥ 2 ^ 63 then (2 ^ 63 - 1, some .errRange)
      else if neg ∧ un > 2 ^ 63 then (-(2 ^ 63 : Int), some .errRange)
      else (if neg then -(un : Int) else (un : Int), none)

/-- The Go call `strconv.Atoi(s)`. -/
def strconvAtoi (s : String) : Int × Option NumError :=
  atoiChars s.data

/-! ## Response cache -/

/-- The Go function `getMaxAge` (lines 458-466).  The loop looks for a value that
contains `max-age`, and the return statement then splits `cacheControlValues[0]`
and indexes the second piece, which panics when there is none. -/
def getMaxAgeLoop (cacheControlValues : List String) :
    List String → Except Panic (Int × Option NumError)
  | [] => .ok (0, none)
  | value :: rest =>
    if stringsContains (stringsToLower value) "max-age" then
      match cacheControlValues.head? with
      | none => .error .indexOutOfRange
      | some first =>
        match (stringsSplit first '=').get? 1 with
        | none => .error .indexOutOfRange
        | some piece => .ok (strconvAtoi piece)
    else getMaxAgeLoop cacheControlValues rest

/-- The Go function `getMaxAge` (lines 458-466). -/
def getMaxAge (cacheControlValues : List String) : Except Panic (Int × Option NumError) :=
  getMaxAgeLoop cacheControlValues cacheControlValues

/-- Model of `*lru.Cache` of `github.com/hashicorp/golang-lru`, a library outside
the repository: at most `size` entries, the most recently used first. -/
structure lruCache where
  size : Nat
  items : List (String × cacheElement)
  deriving DecidableEq, Repr

/-- The library call `cache.Contains(key)`: a lookup that leaves the recency order alone. -/
def lruCache.Contains (c : lruCache) (key : String) : Bool :=
  (assocLookup key c.items).isSome

/-- The library call `cache.Peek(key)`: the stored value, recency untouched.  The
code never calls it; the theorems use it to speak about the content of a cache. -/
def lruCache.Peek (c : lruCache) (key : String) : Option cacheElement :=
  assocLookup key c.items

/-- The library call `cache.Get(key)`: the stored value, and the entry becomes the
most recently used one. -/
def lruCache.Get (c : lruCache) (key : String) : Option cacheElement × lruCache :=
  match assocLookup key c.items with
  | none => (none, c)
  | some v => (some v, { c with items := (key, v) :: c.items.filter (fun e => e.1 ≠ key) })

/-- The library call `cache.Add(key, value)`: an existing entry is overwritten and
becomes the most recent one; a new entry goes to the front, and the least recently
used entry is evicted when the cache is over its size. -/
def lruCache.Add (c : lruCache) (key : String) (value : cacheElement) : lruCache :=
  if c.Contains key then
    { c with items := (key, value) :: c.items.filter (fun e => e.1 ≠ key) }
  else if c.items.length + 1 > c.size then
    { c with items := ((key, value) :: c.items).dropLast }
  else
    { c with items := (key, value) :: c.items }

/-- The fields of `*http.Client` and its transport that the code sets; `Proxy` is the
parsed proxy URL the transport goes through, `none` for a direct connection. -/
structure httpClient where
  MaxIdleConnsPerHost : Int
  Proxy : Option String
  Timeout : Int
  deriving DecidableEq, Repr

/-- The Go struct `rClient`; `cache = none` is the nil cache pointer. -/
structure rClient where
  client : httpClient
  baseURL : String
  cache : Option lruCache
  stale : Bool
  deriving DecidableEq, Repr

/-- The Go struct `PoolConfig`. -/
structure PoolConfig where
  BaseURL : String
  MaxIdleConnsPerHost : Int
  Timeout : Int
  Proxy : String
  CacheElements : Int
  CacheState : Bool
  deriving DecidableEq, Repr

/-- Conversion to `int64` with wrap-around, as Go integer arithmetic does. -/
def wrapInt64 (x : Int) : Int :=
  (x + 2 ^ 63) % 2 ^ 64 - 2 ^ 63

/-- The constant `time.Second` in nanoseconds. -/
def timeSecond : Int := 1000000000

/-- The Go function `getResponseFromCache` (lines 469-488).  `now` is the value of
`time.Now()` in nanoseconds and `time.Now().Before(e)` is `now < e`.  The result
carries the pool after the call, because `cache.Get` reorders the cache. -/
def getResponseFromCache (rclient : rClient) (now : Int) (callURL : String) :
    Except Panic (Option Response × rClient) :=
  match rclient.cache with
  | none => .error .nilDereference
  | some cache =>
    if cache.Contains callURL then
      match cache.Get callURL with
      | (none, _) => .error .typeAssertion
      | (some element, cache') =>
        let rclient' := { rclient with cache := some cache' }
        if now < element.Expires then
          .ok (some ⟨element.Content, 200, element.Headers, true, false⟩, rclient')
        else if rclient.stale then
          .ok (some ⟨element.Content, 200, element.Headers, true, true⟩, rclient')
        else .ok (none, rclient')
    else .ok (none, rclient)

/-- The Go function `setResponseInCache` (lines 491-511); the result is the pool
after the call.  The error of `getMaxAge` is discarded, its panic is not. -/
def setResponseInCache (rclient : rClient) (now : Int) (response : Response)
    (callURL : String) : Except Panic rClient :=
  match response.Headers.lookup "Cache-Control" with
  | none => .ok rclient
  | some cacheControl =>
    match getMaxAge cacheControl with
    | .error p => .error p
    | .ok (cacheControlValue, _) =>
      if cacheControlValue > 0 then
        match rclient.cache with
        | none => .error .nilDereference
        | some cache =>
          let cElement : cacheElement :=
            ⟨response.Body, response.Headers, now + wrapInt64 (timeSecond * cacheControlValue)⟩
          .ok { rclient with cache := some (cache.Add callURL cElement) }
      else .ok rclient

/-! ## Pool registry -/

/-- The constant `DEFAULT_MAX_IDLE_CONNECTIONS_PER_HOST` (line 90). -/
def DEFAULT_MAX_IDLE_CONNECTIONS_PER_HOST : Int := 100

/-- The constant `http.DefaultMaxIdleConnsPerHost` of package `net/http`. -/
def httpDefaultMaxIdleConnsPerHost : Int := 2

/-- The constant `time.Millisecond` in nanoseconds. -/
def timeMillisecond : Int := 1000000

/-- The global `pools` (line 79): pattern to pool.  A pool pointer is identified
with the key it is stored under, since every pool is created for exactly one key. -/
abbrev Pools := List (String × rClient)

/-- The pool built by `AddCustomPool` (lines 94-137), before it is stored.
`urlParse` is `url.Parse`: `none` when the string does not parse, in which case
the code discards the error and `http.ProxyURL(nil)` means no proxy. -/
def newCustomPool (urlParse : String → Option String) (config : PoolConfig) : rClient :=
  { client :=
      { MaxIdleConnsPerHost :=
          if config.MaxIdleConnsPerHost > 0 then config.MaxIdleConnsPerHost
          else httpDefaultMaxIdleConnsPerHost
        Proxy := if config.Proxy ≠ "" then urlParse config.Proxy else none
        Timeout :=
          if config.Timeout ≠ 0 then wrapInt64 (config.Timeout * timeMillisecond) else 0 }
    baseURL := config.BaseURL
    cache := if config.CacheElements > 0 then some ⟨config.CacheElements.toNat, []⟩ else none
    stale := if config.CacheElements > 0 then config.CacheState else false }

/-- The Go function `AddCustomPool` (lines 94-141). -/
def AddCustomPool (urlParse : String → Option String) (pools : Pools) (pattern : String)
    (config : PoolConfig) : Pools :=
  assocInsert pattern (newCustomPool urlParse config) pools

/-- The pool built by `initDefaultPool` (lines 361-376), before it is stored. -/
def newDefaultPool : rClient :=
  { client :=
      { MaxIdleConnsPerHost := DEFAULT_MAX_IDLE_CONNECTIONS_PER_HOST, Proxy := none, Timeout := 0 }
    baseURL := ""
    cache := none
    stale := false }

/-- The Go function `initDefaultPool` (lines 361-381): the new pool and the registry
with the pool stored under `default`. -/
def initDefaultPool (pools : Pools) : rClient × Pools :=
  (newDefaultPool, assocInsert "default" newDefaultPool pools)

/-- The loop of `getPool` (lines 386-390) over the entries in the order the map
range visits them.  `regexp.MustCompile` panics on a pattern that does not compile. -/
def getPoolLoop (regexpMatch : String → String → Option Bool) (callURL : String) :
    List (String × rClient) → Except Panic (Option (String × rClient))
  | [] => .ok none
  | (pattern, pool) :: rest =>
    match regexpMatch pattern callURL with
    | none => .error .regexpCompile
    | some true => .ok (some (pattern, pool))
    | some false => getPoolLoop regexpMatch callURL rest

/-- The Go function `getPool` (lines 384-399).  `mapOrder pools` is the order in
which `range pools` visits the entries.  The result is the key of the selected
pool, the pool, and the registry after the call. -/
def getPool (regexpMatch : String → String → Option Bool) (mapOrder : Pools → Pools)
    (pools : Pools) (callURL : String) : Except Panic (String × rClient × Pools) :=
  match getPoolLoop regexpMatch callURL (mapOrder pools) with
  | .error p => .error p
  | .ok (some (pattern, pool)) => .ok (pattern, pool, pools)
  | .ok none =>
    match assocLookup "default" pools with
    | some pool => .ok ("default", pool, pools)
    | none => .ok ("default", (initDefaultPool pools).1, (initDefaultPool pools).2)

/-! ## Request executor -/

/-- Go `error` values that reach `performRequest`: a `*url.Error` wrapping another
error, the sentinel `notFollowRedirectError`, or any other error. -/
inductive GoError where
  | urlError (Err : GoError)
  | notFollowRedirectError
  | other (msg : String)
  deriving DecidableEq, Repr

/-- The part of `*http.Response` that the code reads; `Body` is the outcome of
`ioutil.ReadAll(response.Body)`. -/
structure httpResponse where
  StatusCode : Int
  Header : GoMap (List String)
  Body : Except GoError String
  deriving DecidableEq, Repr

/-- The request handed to `client.Do`: what `http.NewRequest` got (lines 275-280)
and the map that `setHeaders` forwards (line 288). -/
structure httpRequest where
  Method : String
  URL : String
  Body : Option String
  forwarded : GoMap String
  deriving DecidableEq, Repr

/-- Everything `performRequest` obtains from outside the repository. -/
structure Env where
  /-- `regexp.MatchString(pattern, s)`; `none` when the pattern does not compile. -/
  regexpMatch : String → String → Option Bool
  /-- The order in which `range pools` visits the registry. -/
  mapOrder : Pools → Pools
  /-- The value of `time.Now()` inside `getResponseFromCache`. -/
  nowLookup : Int
  /-- The value of `time.Now()` inside `setResponseInCache`. -/
  nowStore : Int
  /-- The error of `http.NewRequest(method, url, body)`, `none` when it succeeds. -/
  newRequest : String → String → Option GoError
  /-- The outcome `(response, error)` of `rclient.client.Do(request)`. -/
  clientDo : httpClient → httpRequest → Option httpResponse × Option GoError

/-- The globals `pools`, `mocks` and `useMock` (lines 79-85). -/
structure State where
  pools : Pools
  mocks : List mockResponse
  useMock : Bool
  deriving DecidableEq, Repr

/-- What one run of `performRequest` produces: the returned pair, the request that
went to the network (if any), and the registry after the call. -/
structure Result where
  response : Option Response
  error : Option GoError
  sent : Option httpRequest
  pools : Pools
  deriving DecidableEq, Repr

/-- The constant `http.MethodGet`. -/
def MethodGet : String := "GET"

/-- The constant `http.MethodPost`. -/
def MethodPost : String := "POST"

/-- The constant `http.MethodPut`. -/
def MethodPut : String := "PUT"

/-- The constant `http.StatusOK`. -/
def StatusOK : Int := 200

/-- Lines 246-248 of `performRequest`: the URL after the base URL of the pool is applied. -/
def resolveURL (rclient : rClient) (callURL : String) : String :=
  if rclient.baseURL ≠ "" ∧ ¬ stringsContains callURL rclient.baseURL then
    rclient.baseURL ++ callURL
  else callURL

/-- The test `error.(*url.Error)` with `urlError.Err == notFollowRedirectError` (line 305). -/
def isNotFollowRedirect : Option GoError → Bool
  | some (.urlError .notFollowRedirectError) => true
  | _ => false

/-- Lines 301-332 of `performRequest`: from the outcome of `client.Do` to `rcResponse`
and the error.  Reading a field of a nil response panics. -/
def classify (response : Option httpResponse) (error : Option GoError) :
    Except Panic (Response × Option GoError) :=
  let isNotFollowRedirectError := isNotFollowRedirect error
  let error := if isNotFollowRedirectError then none else error
  match error with
  | some e => .ok (⟨"", 0, none, false, false⟩, some e)
  | none =>
    match response with
    | none => .error .nilDereference
    | some response =>
      if ¬ isNotFollowRedirectError then
        match response.Body with
        | .error e => .ok (⟨"", response.StatusCode, none, false, false⟩, some e)
        | .ok byteBody => .ok (⟨byteBody, response.StatusCode, response.Header, false, false⟩, none)
      else
        .ok (⟨"", response.StatusCode, response.Header, false, false⟩, none)

/-- Lines 334-347 of `performRequest`: the cache update or the stale fallback.
`rclient` is the pool after the cache lookup, `key` its key in `pools`. -/
def finish (nowStore : Int) (withCache : Bool) (key : String) (rclient : rClient) (pools : Pools)
    (cachedResponse : Option Response) (callURL : String) (sent : httpRequest)
    (rcResponse : Response) (error : Option GoError) : Except Panic Result :=
  if withCache then
    if rcResponse.Code = StatusOK then
      match setResponseInCache rclient nowStore rcResponse callURL with
      | .error p => .error p
      | .ok rclient' =>
        .ok ⟨some rcResponse, error, some sent, assocInsert key rclient' pools⟩
    else if rclient.stale ∧ cachedResponse.isSome then
      .ok ⟨cachedResponse, none, some sent, pools⟩
    else .ok ⟨some rcResponse, error, some sent, pools⟩
  else .ok ⟨some rcResponse, error, some sent, pools⟩

/-- The test `cachedResponse != nil && !cachedResponse.Staled` (line 266). -/
def isLiveHit : Option Response → Bool
  | some r => !r.Staled
  | none => false

/-- Lines 271-347 of `performRequest`: build the request, send it, classify the
outcome and finish. -/
def performRequestSend (env : Env) (withCache : Bool) (key : String) (rclient : rClient)
    (pools : Pools) (cachedResponse : Option Response) (method callURL body : String)
    (headers : GoMap String) : Except Panic Result :=
  match env.newRequest method callURL with
  | some e => .ok ⟨none, some e, none, pools⟩
  | none =>
    let request : httpRequest :=
      ⟨method, callURL,
        if method = MethodPost ∨ method = MethodPut then some body else none, headers⟩
    match classify (env.clientDo rclient.client request).1 (env.clientDo rclient.client request).2 with
    | .error p => .error p
    | .ok (rcResponse, error) =>
      finish env.nowStore withCache key rclient pools cachedResponse callURL request
        rcResponse error

/-- Lines 258-347 of `performRequest`: what happens once the pool is selected, the
URL resolved and no mock has answered.  The pool is written back to the registry
under its key after each cache operation. -/
def performRequestLive (env : Env) (key : String) (rclient : rClient) (pools : Pools)
    (method callURL body : String) (headers : GoMap String) : Except Panic Result :=
  let withCache : Bool := decide (method = MethodGet) && rclient.cache.isSome
  if withCache then
    match getResponseFromCache rclient env.nowLookup callURL with
    | .error p => .error p
    | .ok (cachedResponse, rclient1) =>
      if isLiveHit cachedResponse then
        .ok ⟨cachedResponse, none, none, assocInsert key rclient1 pools⟩
      else
        performRequestSend env true key rclient1 (assocInsert key rclient1 pools)
          cachedResponse method callURL body headers
  else
    performRequestSend env false key rclient pools none method callURL body headers

/-- The Go function `performRequest` (lines 242-348).  The header block that
`setHeaders` writes and the deferred `response.Body.Close()` have no effect on
the result and are left out; the request records the forwarded map instead. -/
def performRequest (env : Env) (s : State) (method callURL body : String)
    (headers : GoMap String) : Except Panic Result :=
  match getPool env.regexpMatch env.mapOrder s.pools callURL with
  | .error p => .error p
  | .ok (key, rclient, pools) =>
    let callURL := resolveURL rclient callURL
    let mock : Option Response :=
      if s.useMock then searchMockCall env.regexpMatch s.mocks method callURL headers body
      else none
    match mock with
    | some r => .ok ⟨some r, none, none, pools⟩
    | none => performRequestLive env key rclient pools method callURL body headers

/-! ## Mock management -/

/-- The Go function `AddMock` (lines 185-210): nothing happens when mocking is
off; otherwise a rule with `Regexp` unset goes to the end of the list. -/
def AddMock (s : State) (URL method body : String) (response : Response)
    (headers : List Header) : State :=
  if ¬ s.useMock then s
  else
    { s with mocks := s.mocks ++ [⟨URL, false, method, response, getHeadersMap headers, body⟩] }

/-- The body of the loop of `URLasRegexp` (lines 217-219): a rule whose URL equals
`url` gets `Regexp` set. -/
def markAsRegexp (url : String) (mock : mockResponse) : mockResponse :=
  if mock.URL = url then { mock with Regexp := true } else mock

/-- The Go function `URLasRegexp` (lines 213-222) on the globals. -/
def URLasRegexp (s : State) (url : String) : State :=
  { s with mocks := s.mocks.map (markAsRegexp url) }

/-! ## Predicates and sample data used by the theorems -/

/-- The four conditions a rule must meet for a call, in the words of the
specification: same method, URL equal (or matched as a regular expression when
the rule is flagged), headers equal under `sameHeaders`, same body. -/
def ruleApplies (regexpMatch : String → String → Option Bool)
    (method callURL : String) (headers : GoMap String) (body : String)
    (mock : mockResponse) : Prop :=
  mock.Method = method ∧
  (if mock.Regexp = true then regexpMatch mock.URL callURL = some true else mock.URL = callURL) ∧
  sameHeaders headers mock.Headers = true ∧
  mock.Body = body

/-- Sample of `regexp.MatchString` for the concrete examples: the pattern `[` does
not compile, and a pattern without metacharacters matches exactly the strings
that contain it.  The examples use it at such patterns only. -/
def sampleRegexp (pattern s : String) : Option Bool :=
  if pattern = "[" then none else some (stringsContains s pattern)

/-- Sample pool with a cache of two entries that holds one entry for
`http://api/x`, expiring at instant 100. -/
def sampleCachingPool (stale : Bool) : rClient :=
  { client := { MaxIdleConnsPerHost := 2, Proxy := none, Timeout := 0 }
    baseURL := ""
    cache := some ⟨2, [("http://api/x", ⟨"cached", some [("Cache-Control", ["max-age=1"])], 100⟩)]⟩
    stale := stale }

/-- Sample environment: `sampleRegexp`, the registry visited in stored order,
clock readings `now`, request construction that succeeds, and a network whose
outcome is `outcome` for every request. -/
def sampleEnv (now : Int) (outcome : Option httpResponse × Option GoError) : Env :=
  { regexpMatch := sampleRegexp
    mapOrder := fun pools => pools
    nowLookup := now
    nowStore := now
    newRequest := fun _ _ => none
    clientDo := fun _ _ => outcome }

/-- Sample mock rule for a GET on `http://api/x` with no headers and an empty body. -/
def sampleMock : mockResponse :=
  { URL := "http://api/x", Regexp := false, Method := "GET"
    Response := ⟨"mocked", 200, none, false, false⟩
    Headers := some [], Body := "" }

/-- The entry the cache of a pool holds for a key; nothing when the pool has no cache. -/
def cachePeek (rclient : rClient) (key : String) : Option cacheElement :=
  match rclient.cache with
  | none => none
  | some cache => cache.Peek key

/-- The pool after its cache has served a `Get` for the key: same entries, the
entry of the key (if any) moved to the front of the recency order. -/
def afterGet (rclient : rClient) (key : String) : rClient :=
  { rclient with cache := rclient.cache.map (fun cache => (cache.Get key).2) }

/-- What a cache lookup at instant `now` answers for a key, from the content of the
cache alone: a live hit, a stale hit when the pool allows staleness, or nothing. -/
def cacheLookup (rclient : rClient) (now : Int) (key : String) : Option Response :=
  match cachePeek rclient key with
  | none => none
  | some element =>
    if now < element.Expires then some ⟨element.Content, 200, element.Headers, true, false⟩
    else if rclient.stale = true then some ⟨element.Content, 200, element.Headers, true, true⟩
    else none

/-- The request `performRequest` builds for a call (lines 275-288). -/
def requestFor (method callURL body : String) (headers : GoMap String) : httpRequest :=
  ⟨method, callURL, if method = MethodPost ∨ method = MethodPut then some body else none, headers⟩

/-- The registry after the cache lookup of a call: the selected pool is stored back
under its key when the call consulted the cache, and nothing moves otherwise. -/
def poolsAfterLookup (key : String) (rclient : rClient) (pools : Pools)
    (method callURL : String) : Pools :=
  if method = MethodGet ∧ rclient.cache.isSome = true then
    assocInsert key (afterGet rclient callURL) pools
  else pools

/-- The decimal numeral of a natural number, as a server prints `N` in `max-age=N`. -/
def decimal (n : Nat) : String :=
  String.mk (Nat.toDigits 10 n)

/-- The keys of an association list are pairwise distinct, as the keys of a Go map are. -/
def distinctKeys {α : Type} (l : List (String × α)) : Prop :=
  (l.map Prod.fst).Nodup

/-- A `GoMap` value that stands for a Go map: the nil map, or entries with distinct keys. -/
def GoMap.wellFormed {α : Type} (m : GoMap α) : Prop :=
  match m with
  | none => True
  | some l => distinctKeys l

instance instDecidableDistinctKeys {α : Type} (l : List (String × α)) :
    Decidable (distinctKeys l) := by
  unfold distinctKeys
  infer_instance

instance instDecidableWellFormed {α : Type} (m : GoMap α) : Decidable m.wellFormed := by
  unfold GoMap.wellFormed
  cases m <;> infer_instance

/-- The URL of a call in the words of the specification: the base URL of the pool
goes in front when it is not empty and is not a substring of the call URL. -/
def prefixedURL (baseURL callURL : String) : String :=
  if baseURL ≠ "" ∧ ¬ (baseURL.data <:+: callURL.data) then baseURL ++ callURL else callURL

/-- Sample pool without a cache whose base URL is `http://localhost:8080`. -/
def sampleBasePool : rClient :=
  { client := { MaxIdleConnsPerHost := 20, Proxy := none, Timeout := 0 }
    baseURL := "http://localhost:8080"
    cache := none
    stale := false }

/-- The contract of `client.Do` in package `net/http`: a response with a nil error, no
response with an error other than the redirect sentinel, or the redirecting
response together with the `url.Error` that wraps the redirect sentinel. -/
def netHttpContract (outcome : Option httpResponse × Option GoError) : Prop :=
  (outcome.1.isSome = true ∧ outcome.2 = none) ∨
  (outcome.1 = none ∧ ∃ e, outcome.2 = some e ∧ isNotFollowRedirect (some e) = false) ∨
  (outcome.1.isSome = true ∧ outcome.2 = some (.urlError .notFollowRedirectError))

/-- Sample pool whose cache of two entries is full: the entry of `http://api/a`,
live until instant 1000, is the most recently used one, and the entry of
`http://api/x`, expired at instant 100, the least recently used one. -/
def sampleFullPool : rClient :=
  { client := { MaxIdleConnsPerHost := 2, Proxy := none, Timeout := 0 }
    baseURL := ""
    cache := some ⟨2, [("http://api/a", ⟨"a", none, 1000⟩), ("http://api/x", ⟨"x", none, 100⟩)]⟩
    stale := false }

/-! ## Mock resolution -/

theorem mockMatches_iff (regexpMatch : String → String → Option Bool)
    (method callURL : String) (headers : GoMap String) (body : String) (mock : mockResponse) :
    mockMatches regexpMatch method callURL headers body mock = true ↔
      ruleApplies regexpMatch method callURL headers body mock := by
  unfold mockMatches ruleApplies
  cases hre : mock.Regexp
  · simp only [Bool.false_eq_true, if_false, Bool.and_eq_true, decide_eq_true_eq]
    constructor
    · rintro ⟨⟨⟨h1, h2⟩, h3⟩, h4⟩
      exact ⟨h2, h1, h3, h4.symm⟩
    · rintro ⟨h2, h1, h3, h4⟩
      exact ⟨⟨⟨h1, h2⟩, h3⟩, h4.symm⟩
  · simp only [if_true, Bool.and_eq_true, decide_eq_true_eq]
    cases hm : regexpMatch mock.URL callURL with
    | none =>
      simp
    | some b =>
      cases b
      · simp
      · simp only [Option.getD_some, Bool.true_and, and_true, true_and]
        constructor
        · rintro ⟨⟨h1, h2⟩, h3⟩
          exact ⟨h1, h2, h3.symm⟩
        · rintro ⟨h1, h2, h3⟩
          exact ⟨⟨h1, h2⟩, h3.symm⟩

theorem searchMockCall_eq_some_iff (regexpMatch : String → String → Option Bool)
    (mocks : List mockResponse) (method callURL : String) (headers : GoMap String)
    (body : String) (r : Response) :
    searchMockCall regexpMatch mocks method callURL headers body = some r ↔
      ∃ (i : Nat) (mock : mockResponse), mocks[i]? = some mock ∧
        ruleApplies regexpMatch method callURL headers body mock ∧
        (∀ (j : Nat) (mock' : mockResponse), j < i → mocks[j]? = some mock' →
          ¬ ruleApplies regexpMatch method callURL headers body mock') ∧
        r = mock.Response := by
  induction mocks with
  | nil => simp [searchMockCall]
  | cons m rest ih =>
    unfold searchMockCall
    by_cases hm : mockMatches regexpMatch method callURL headers body m = true
    · rw [if_pos hm]
      have hm' := (mockMatches_iff regexpMatch method callURL headers body m).1 hm
      constructor
      · intro h
        refine ⟨0, m, List.getElem?_cons_zero, hm', ?_, ?_⟩
        · intro j mock' hj
          exact absurd hj (Nat.not_lt_zero j)
        · exact (Option.some.inj h).symm
      · rintro ⟨i, mock, hi, happ, hfirst, hr⟩
        cases i with
        | zero =>
          simp only [List.getElem?_cons_zero, Option.some.injEq] at hi
          rw [hr, hi]
        | succ k =>
          exact absurd hm' (hfirst 0 m (Nat.succ_pos k) List.getElem?_cons_zero)
    · rw [if_neg hm]
      have hm' : ¬ ruleApplies regexpMatch method callURL headers body m :=
        fun h => hm ((mockMatches_iff regexpMatch method callURL headers body m).2 h)
      rw [ih]
      constructor
      · rintro ⟨i, mock, hi, happ, hfirst, hr⟩
        refine ⟨i + 1, mock, by simpa using hi, happ, ?_, hr⟩
        intro j mock' hj hj'
        cases j with
        | zero =>
          simp only [List.getElem?_cons_zero, Option.some.injEq] at hj'
          rw [← hj']
          exact hm'
        | succ k =>
          exact hfirst k mock' (Nat.lt_of_succ_lt_succ hj) (by simpa using hj')
      · rintro ⟨i, mock, hi, happ, hfirst, hr⟩
        cases i with
        | zero =>
          simp only [List.getElem?_cons_zero, Option.some.injEq] at hi
          rw [hi] at hm'
          exact absurd happ hm'
        | succ k =>
          refine ⟨k, mock, by simpa using hi, happ, ?_, hr⟩
          intro j mock' hj hj'
          exact hfirst (j + 1) mock' (Nat.succ_lt_succ hj) (by simpa using hj')

theorem searchMockCall_eq_none_iff (regexpMatch : String → String → Option Bool)
    (mocks : List mockResponse) (method callURL : String) (headers : GoMap String)
    (body : String) :
    searchMockCall regexpMatch mocks method callURL headers body = none ↔
      ∀ mock ∈ mocks, ¬ ruleApplies regexpMatch method callURL headers body mock := by
  induction mocks with
  | nil => simp [searchMockCall]
  | cons m rest ih =>
    unfold searchMockCall
    by_cases hm : mockMatches regexpMatch method callURL headers body m = true
    · rw [if_pos hm]
      have hm' := (mockMatches_iff regexpMatch method callURL headers body m).1 hm
      simp only [List.mem_cons, forall_eq_or_imp]
      constructor
      · intro h
        exact absurd h (Option.some_ne_none _)
      · intro h
        exact absurd hm' h.1
    · rw [if_neg hm, ih]
      have hm' : ¬ ruleApplies regexpMatch method callURL headers body m :=
        fun h => hm ((mockMatches_iff regexpMatch method callURL headers body m).2 h)
      simp only [List.mem_cons, forall_eq_or_imp]
      exact ⟨fun h => ⟨hm', h⟩, fun h => h.2⟩

/-- C1: `searchMockCall` returns the canned Response of the rule with the smallest
index that meets the four conditions (method, URL literally or as a regular
expression, headers under `sameHeaders`, body); it returns nil exactly when no
rule meets them; and a leading rule whose headers or body differ is skipped. -/
theorem searchMockCall_returns_first_matching_rule
    (regexpMatch : String → String → Option Bool) (mocks : List mockResponse)
    (method callURL : String) (headers : GoMap String) (body : String) :
    (∀ r, searchMockCall regexpMatch mocks method callURL headers body = some r ↔
      ∃ (i : Nat) (mock : mockResponse), mocks[i]? = some mock ∧
        ruleApplies regexpMatch method callURL headers body mock ∧
        (∀ (j : Nat) (mock' : mockResponse), j < i → mocks[j]? = some mock' →
          ¬ ruleApplies regexpMatch method callURL headers body mock') ∧
        r = mock.Response) ∧
    (searchMockCall regexpMatch mocks method callURL headers body = none ↔
      ∀ mock ∈ mocks, ¬ ruleApplies regexpMatch method callURL headers body mock) ∧
    (∀ mock : mockResponse, (sameHeaders headers mock.Headers = false ∨ mock.Body ≠ body) →
      searchMockCall regexpMatch (mock :: mocks) method callURL headers body =
        searchMockCall regexpMatch mocks method callURL headers body) := by
  refine ⟨fun r => searchMockCall_eq_some_iff regexpMatch mocks method callURL headers body r,
    searchMockCall_eq_none_iff regexpMatch mocks method callURL headers body, ?_⟩
  intro mock hdiff
  have hno : ¬ mockMatches regexpMatch method callURL headers body mock = true := by
    rw [mockMatches_iff]
    rintro ⟨_, _, h3, h4⟩
    rcases hdiff with h | h
    · rw [h] at h3
      exact Bool.false_ne_true h3
    · exact h h4
  conv_lhs => unfold searchMockCall
  rw [if_neg hno]

theorem getPool_pools (regexpMatch : String → String → Option Bool) (mapOrder : Pools → Pools)
    (pools : Pools) (callURL key : String) (rclient : rClient) (pools' : Pools)
    (h : getPool regexpMatch mapOrder pools callURL = .ok (key, rclient, pools')) :
    pools' = pools ∨
      (assocLookup "default" pools = none ∧ key = "default" ∧ rclient = newDefaultPool ∧
        pools' = assocInsert "default" newDefaultPool pools) := by
  unfold getPool at h
  split at h
  · exact absurd h (by simp)
  · simp only [Except.ok.injEq, Prod.mk.injEq] at h
    exact Or.inl h.2.2.symm
  · split at h
    · simp only [Except.ok.injEq, Prod.mk.injEq] at h
      exact Or.inl h.2.2.symm
    · rename_i hnone
      simp only [initDefaultPool, Except.ok.injEq, Prod.mk.injEq] at h
      exact Or.inr ⟨hnone, h.1.symm, h.2.1.symm, h.2.2.symm⟩

/-- C2: when mocking is enabled and `searchMockCall` finds a rule for the method,
the URL resolved against the selected pool, the headers and the body,
`performRequest` returns that rule's Response with a nil error, sends no request,
and leaves the registry as pool selection left it (so the selected pool's
cache, recency order included, is untouched). -/
theorem performRequest_mock_short_circuit (env : Env) (s : State)
    (method callURL body : String) (headers : GoMap String)
    (key : String) (rclient : rClient) (pools : Pools) (r : Response)
    (hpool : getPool env.regexpMatch env.mapOrder s.pools callURL = .ok (key, rclient, pools))
    (huse : s.useMock = true)
    (hfound : searchMockCall env.regexpMatch s.mocks method (resolveURL rclient callURL)
      headers body = some r) :
    performRequest env s method callURL body headers = .ok ⟨some r, none, none, pools⟩ ∧
    (pools = s.pools ∨ pools = assocInsert "default" newDefaultPool s.pools) := by
  constructor
  · unfold performRequest
    rw [hpool]
    simp only [huse, if_true, hfound]
  · rcases getPool_pools _ _ _ _ _ _ _ hpool with h | h
    · exact Or.inl h
    · exact Or.inr h.2.2.2

/-- C2 at a concrete call: the pool holds a live cache entry for the URL, a mock
rule matches, and the mock's Response comes back with the registry untouched. -/
theorem performRequest_mock_short_circuit_witness :
    performRequest (sampleEnv 0 (none, none))
        ⟨[("api", sampleCachingPool false)], [sampleMock], true⟩ "GET" "http://api/x" "" (some [])
      = .ok ⟨some ⟨"mocked", 200, none, false, false⟩, none, none,
          [("api", sampleCachingPool false)]⟩ ∧
    ([("api", sampleCachingPool false)] = [("api", sampleCachingPool false)] ∨
      [("api", sampleCachingPool false)] =
        assocInsert "default" newDefaultPool [("api", sampleCachingPool false)]) :=
  performRequest_mock_short_circuit (sampleEnv 0 (none, none))
    ⟨[("api", sampleCachingPool false)], [sampleMock], true⟩ "GET" "http://api/x" "" (some [])
    "api" (sampleCachingPool false) [("api", sampleCachingPool false)]
    ⟨"mocked", 200, none, false, false⟩ (by decide) (by decide) (by decide)

/-! ## Response cache -/

theorem assocLookup_filter_ne {α : Type} (key k : String) (l : List (String × α))
    (h : k ≠ key) :
    assocLookup k (l.filter (fun e => e.1 ≠ key)) = assocLookup k l := by
  induction l with
  | nil => rfl
  | cons e rest ih =>
    obtain ⟨k', v⟩ := e
    by_cases hk : k' = key
    · have hne : ¬ k' = k := fun h' => h (h'.symm.trans hk)
      rw [List.filter_cons_of_neg (by simpa using hk), ih]
      simp only [assocLookup, hne, if_false]
    · rw [List.filter_cons_of_pos (by simpa using hk)]
      simp only [assocLookup]
      rw [ih]

theorem lruCache_Get_fst (c : lruCache) (key : String) :
    (c.Get key).1 = c.Peek key := by
  unfold lruCache.Get lruCache.Peek
  cases assocLookup key c.items <;> rfl

theorem lruCache_Get_size (c : lruCache) (key : String) :
    (c.Get key).2.size = c.size := by
  unfold lruCache.Get
  cases assocLookup key c.items <;> rfl

theorem lruCache_Get_Peek (c : lruCache) (key k : String) :
    (c.Get key).2.Peek k = c.Peek k := by
  unfold lruCache.Get lruCache.Peek
  cases h : assocLookup key c.items with
  | none => rfl
  | some v =>
    by_cases hk : k = key
    · subst hk
      simp [assocLookup, h]
    · have hk' : ¬ key = k := fun h' => hk h'.symm
      simp only [assocLookup, hk', if_false]
      exact assocLookup_filter_ne key k c.items hk

theorem cachePeek_afterGet (rclient : rClient) (key k : String) :
    cachePeek (afterGet rclient key) k = cachePeek rclient k := by
  unfold cachePeek afterGet
  cases rclient.cache with
  | none => rfl
  | some cache => exact lruCache_Get_Peek cache key k

theorem getResponseFromCache_eq (rclient : rClient) (cache : lruCache) (now : Int)
    (callURL : String) (hcache : rclient.cache = some cache) :
    getResponseFromCache rclient now callURL =
      match cache.Peek callURL with
      | none => .ok (none, rclient)
      | some element =>
        if now < element.Expires then
          .ok (some ⟨element.Content, 200, element.Headers, true, false⟩, afterGet rclient callURL)
        else if rclient.stale = true then
          .ok (some ⟨element.Content, 200, element.Headers, true, true⟩, afterGet rclient callURL)
        else .ok (none, afterGet rclient callURL) := by
  unfold getResponseFromCache
  rw [hcache]
  simp only
  have hget := lruCache_Get_fst cache callURL
  cases hp : cache.Peek callURL with
  | none =>
    have : cache.Contains callURL = false := by
      unfold lruCache.Contains
      unfold lruCache.Peek at hp
      rw [hp]
      rfl
    simp [this]
  | some element =>
    have hcont : cache.Contains callURL = true := by
      unfold lruCache.Contains
      unfold lruCache.Peek at hp
      rw [hp]
      rfl
    rw [hp] at hget
    have hafter : afterGet rclient callURL = { rclient with cache := some (cache.Get callURL).2 } := by
      unfold afterGet
      rw [hcache]
      rfl
    rw [hafter]
    simp only [hcont, if_true]
    rcases hg : cache.Get callURL with ⟨g1, g2⟩
    rw [hg] at hget
    simp only at hget
    subst hget
    rfl

/-- C3: for a pool with a cache, `getResponseFromCache` returns nil when the cache
has no entry for the URL; the entry's content and headers with Code 200,
CachedContent set and Staled unset when the entry expires after `now`; the same
with Staled set when the entry is expired and the pool's stale flag is set; nil
when the entry is expired and the stale flag is unset.  The call never drops
an entry: afterwards every URL has the entry it had, the expired one included. -/
theorem getResponseFromCache_outcomes (rclient : rClient) (cache : lruCache) (now : Int)
    (callURL : String) (hcache : rclient.cache = some cache) :
    (cache.Peek callURL = none →
      getResponseFromCache rclient now callURL = .ok (none, rclient)) ∧
    (∀ element, cache.Peek callURL = some element → now < element.Expires →
      getResponseFromCache rclient now callURL =
        .ok (some ⟨element.Content, 200, element.Headers, true, false⟩,
          afterGet rclient callURL)) ∧
    (∀ element, cache.Peek callURL = some element → ¬ now < element.Expires →
      rclient.stale = true →
      getResponseFromCache rclient now callURL =
        .ok (some ⟨element.Content, 200, element.Headers, true, true⟩,
          afterGet rclient callURL)) ∧
    (∀ element, cache.Peek callURL = some element → ¬ now < element.Expires →
      rclient.stale = false →
      getResponseFromCache rclient now callURL = .ok (none, afterGet rclient callURL) ∧
      cachePeek (afterGet rclient callURL) callURL = some element) ∧
    (∀ k, cachePeek (afterGet rclient callURL) k = cachePeek rclient k) := by
  have heq := getResponseFromCache_eq rclient cache now callURL hcache
  refine ⟨?_, ?_, ?_, ?_, fun k => cachePeek_afterGet rclient callURL k⟩
  · intro hp
    rw [heq, hp]
  · intro element hp hlive
    rw [heq, hp]
    simp only [hlive, if_true]
  · intro element hp hexp hstale
    rw [heq, hp]
    simp only [hexp, if_false, hstale, if_true]
  · intro element hp hexp hstale
    constructor
    · rw [heq, hp]
      simp [hexp, hstale]
    · rw [cachePeek_afterGet]
      unfold cachePeek
      rw [hcache]
      exact hp

/-- C3 at a concrete pool: the entry of `http://api/x` expires at instant 100, the
lookup happens at instant 150 and the pool does not serve stale entries. -/
theorem getResponseFromCache_outcomes_witness :
    getResponseFromCache (sampleCachingPool false) 150 "http://api/x" =
        .ok (none, afterGet (sampleCachingPool false) "http://api/x") ∧
      cachePeek (afterGet (sampleCachingPool false) "http://api/x") "http://api/x" =
        some ⟨"cached", some [("Cache-Control", ["max-age=1"])], 100⟩ :=
  (getResponseFromCache_outcomes (sampleCachingPool false)
    ⟨2, [("http://api/x", ⟨"cached", some [("Cache-Control", ["max-age=1"])], 100⟩)]⟩
    150 "http://api/x" rfl).2.2.2.1
    ⟨"cached", some [("Cache-Control", ["max-age=1"])], 100⟩ (by decide) (by decide) rfl

theorem splitChars_no_sep (sep : Char) (l : List Char) (h : sep ∉ l) :
    splitChars sep l = [l] := by
  induction l with
  | nil => rfl
  | cons c rest ih =>
    have hc : ¬ c = sep := fun h' => h (h' ▸ List.mem_cons_self c rest)
    have hrest : sep ∉ rest := fun h' => h (List.mem_cons_of_mem c h')
    simp only [splitChars, hc, if_false, ih hrest]

theorem parseDigits_ok_digits (l : List Char) (n m : Nat) (h : parseDigits l n = .ok m) :
    ∀ c ∈ l, (digitValue c).isSome = true := by
  induction l generalizing n with
  | nil => intro c hc; cases hc
  | cons d rest ih =>
    intro c hc
    unfold parseDigits at h
    cases hd : digitValue d with
    | none => rw [hd] at h; cases h
    | some v =>
      rw [hd] at h
      simp only at h
      rcases List.mem_cons.1 hc with rfl | hc'
      · rw [hd]; rfl
      · split at h
        · cases h
        · exact ih _ h c hc'

theorem mem_stripSign (c : Char) (s : List Char) (h : c ∈ s) (hp : c ≠ '+') (hm : c ≠ '-') :
    c ∈ stripSign s := by
  unfold stripSign
  split
  · rcases List.mem_cons.1 h with h' | h'
    · exact absurd h' hp
    · exact h'
  · rcases List.mem_cons.1 h with h' | h'
    · exact absurd h' hm
    · exact h'
  · exact h

theorem atoiChars_ok_digits (s : List Char) (N : Int) (h : atoiChars s = (N, none)) :
    '=' ∉ s := by
  intro hmem
  have hmem' : '=' ∈ stripSign s := mem_stripSign '=' s hmem (by decide) (by decide)
  unfold atoiChars at h
  simp only at h
  split at h
  · simp at h
  · split at h
    · simp at h
    · simp at h
    · rename_i un hparse
      have := parseDigits_ok_digits _ _ _ hparse '=' hmem'
      revert this
      decide

theorem getMaxAge_single (num : String) (N : Int) (h : strconvAtoi num = (N, none)) :
    getMaxAge ["max-age=" ++ num] = .ok (N, none) := by
  have hno : '=' ∉ num.data := atoiChars_ok_digits num.data N h
  have hcontains : stringsContains (stringsToLower ("max-age=" ++ num)) "max-age" = true := by
    simp [stringsContains, stringsToLower, containsChars, List.isPrefixOf]
  have hsplit : (stringsSplit ("max-age=" ++ num) '=').get? 1 = some num := by
    simp [stringsSplit, splitChars, splitChars_no_sep '=' num.data hno]
  simp only [getMaxAge, getMaxAgeLoop, hcontains, if_true, List.head?_cons, hsplit, h]

theorem digitValue_digitChar : ∀ d, d < 10 → digitValue (Nat.digitChar d) = some d := by
  decide

theorem parseDigits_cons (c : Char) (rest : List Char) (n d : Nat)
    (hd : digitValue c = some d) (hfit : n * 10 + d < 2 ^ 64) :
    parseDigits (c :: rest) n = parseDigits rest (n * 10 + d) := by
  conv_lhs => unfold parseDigits
  rw [hd]
  simp only
  rw [if_neg (by omega)]

theorem parseDigits_toDigitsCore (fuel : Nat) :
    ∀ (n : Nat) (ds : List Char), n < fuel → n < 2 ^ 64 →
      parseDigits (Nat.toDigitsCore 10 fuel n ds) 0 = parseDigits ds n := by
  induction fuel with
  | zero => intro n ds h; omega
  | succ fuel ih =>
    intro n ds hfuel hfit
    have hd : digitValue (Nat.digitChar (n % 10)) = some (n % 10) :=
      digitValue_digitChar (n % 10) (Nat.mod_lt n (by decide))
    have hsplit : n / 10 * 10 + n % 10 = n := by omega
    unfold Nat.toDigitsCore
    by_cases h0 : n / 10 = 0
    · simp only [h0, if_true]
      have hn : 0 * 10 + n % 10 = n := by omega
      rw [parseDigits_cons _ _ 0 (n % 10) hd (by omega), hn]
    · simp only [h0, if_false]
      rw [ih (n / 10) _ (by omega) (by omega),
        parseDigits_cons _ _ (n / 10) (n % 10) hd (by omega), hsplit]

theorem toDigitsCore_ne_nil (fuel : Nat) :
    ∀ (n : Nat) (ds : List Char), ds ≠ [] ∨ 0 < fuel → Nat.toDigitsCore 10 fuel n ds ≠ [] := by
  induction fuel with
  | zero =>
    intro n ds h
    rcases h with h | h
    · simpa [Nat.toDigitsCore] using h
    · omega
  | succ fuel ih =>
    intro n ds _
    unfold Nat.toDigitsCore
    by_cases h0 : n / 10 = 0
    · simp [h0]
    · simp only [h0, if_false]
      exact ih _ _ (Or.inl (List.cons_ne_nil _ _))

theorem strconvAtoi_decimal (n : Nat) (h : n < 2 ^ 63) :
    strconvAtoi (decimal n) = ((n : Int), none) := by
  have hparse : parseDigits (Nat.toDigits 10 n) 0 = .ok n := by
    unfold Nat.toDigits
    rw [parseDigits_toDigitsCore (n + 1) n [] (by omega) (by omega)]
    rfl
  have hdigits := parseDigits_ok_digits _ _ _ hparse
  have hne : Nat.toDigits 10 n ≠ [] := toDigitsCore_ne_nil (n + 1) n [] (Or.inr (by omega))
  unfold strconvAtoi decimal
  simp only
  cases hl : Nat.toDigits 10 n with
  | nil => exact absurd hl hne
  | cons c rest =>
    rw [hl] at hparse hdigits
    have hc : (digitValue c).isSome = true := hdigits c (List.mem_cons_self _ _)
    have hplus : c ≠ '+' := by
      intro h'
      rw [h'] at hc
      revert hc
      decide
    have hminus : c ≠ '-' := by
      intro h'
      rw [h'] at hc
      revert hc
      decide
    have hstrip : stripSign (c :: rest) = c :: rest := by
      unfold stripSign
      split
      · rename_i heq
        exact absurd (List.cons.inj heq).1 hplus
      · rename_i heq
        exact absurd (List.cons.inj heq).1 hminus
      · rfl
    unfold atoiChars
    simp only [hstrip, hparse, List.head?_cons, Option.some.injEq, hminus, decide_False,
      List.isEmpty_cons, Bool.false_eq_true, if_false, false_and, not_false_eq_true, true_and]
    rw [if_neg (by omega)]

theorem lruCache_Add_Peek_self (c : lruCache) (key : String) (value : cacheElement)
    (hsize : 0 < c.size) : (c.Add key value).Peek key = some value := by
  unfold lruCache.Add lruCache.Peek
  split
  · simp [assocLookup]
  · split
    · rename_i hover
      cases hitems : c.items with
      | nil =>
        rw [hitems] at hover
        simp only [List.length_nil, Nat.zero_add] at hover
        omega
      | cons x xs => simp [List.dropLast, assocLookup]
    · simp [assocLookup]

theorem wrapInt64_of_fits (x : Int) (hlo : -(2 ^ 63 : Int) ≤ x) (hhi : x < 2 ^ 63) :
    wrapInt64 x = x := by
  unfold wrapInt64
  have h1 : (0 : Int) ≤ x + 2 ^ 63 := by omega
  have h2 : x + 2 ^ 63 < 2 ^ 64 := by omega
  rw [Int.emod_eq_of_lt h1 h2]
  omega

theorem setResponseInCache_max_age (rclient : rClient) (cache : lruCache) (t : Int)
    (response : Response) (callURL num : String) (N : Int)
    (hcache : rclient.cache = some cache)
    (hheader : response.Headers.lookup "Cache-Control" = some ["max-age=" ++ num])
    (hnum : strconvAtoi num = (N, none)) (hpos : 0 < N) :
    setResponseInCache rclient t response callURL =
      .ok { rclient with cache := some (cache.Add callURL
        ⟨response.Body, response.Headers, t + wrapInt64 (timeSecond * N)⟩) } := by
  unfold setResponseInCache
  rw [hheader]
  simp only [getMaxAge_single num N hnum, hpos, if_true, hcache]

/-- The round trip for any numeral that `strconv.Atoi` reads as `N`. -/
theorem cache_round_trip_numeral (rclient : rClient) (cache : lruCache) (t now : Int)
    (response : Response) (callURL num : String) (N : Int)
    (hcache : rclient.cache = some cache) (hsize : 0 < cache.size)
    (hheader : response.Headers.lookup "Cache-Control" = some ["max-age=" ++ num])
    (hnum : strconvAtoi num = (N, none)) (hpos : 0 < N)
    (hfit : N * timeSecond < 2 ^ 63) (hnow : now < t + N * timeSecond) :
    ∃ stored : rClient, setResponseInCache rclient t response callURL = .ok stored ∧
      getResponseFromCache stored now callURL =
        .ok (some ⟨response.Body, 200, response.Headers, true, false⟩,
          afterGet stored callURL) := by
  refine ⟨_, setResponseInCache_max_age rclient cache t response callURL num N hcache hheader
    hnum hpos, ?_⟩
  have hsec : timeSecond * N = N * timeSecond := Int.mul_comm _ _
  have hwrap : wrapInt64 (timeSecond * N) = N * timeSecond := by
    rw [hsec]
    apply wrapInt64_of_fits _ _ hfit
    have : (0 : Int) ≤ N * timeSecond := Int.mul_nonneg (Int.le_of_lt hpos) (by decide)
    omega
  rw [getResponseFromCache_eq _ (cache.Add callURL
    ⟨response.Body, response.Headers, t + wrapInt64 (timeSecond * N)⟩) now callURL rfl]
  rw [lruCache_Add_Peek_self _ _ _ hsize]
  simp only [hwrap, hnow, if_true]

/-- C4 (amended): on a pool whose cache has room for at least one entry, after
`setResponseInCache` stores at time `t` a Response whose Cache-Control header is
`max-age=N` with `0 < N ≤ 9223372036` (so that `N` seconds fit in an int64 count
of nanoseconds), `getResponseFromCache` for the same URL at any time before
`t + N` seconds returns Code 200, CachedContent set, Staled unset and the body
and headers of the stored Response. -/
theorem cache_round_trip (rclient : rClient) (cache : lruCache) (t now : Int)
    (response : Response) (callURL : String) (N : Nat)
    (hcache : rclient.cache = some cache) (hsize : 0 < cache.size)
    (hheader : response.Headers.lookup "Cache-Control" = some ["max-age=" ++ decimal N])
    (hpos : 0 < N) (hfit : N ≤ 9223372036) (hnow : now < t + (N : Int) * timeSecond) :
    ∃ stored : rClient, setResponseInCache rclient t response callURL = .ok stored ∧
      getResponseFromCache stored now callURL =
        .ok (some ⟨response.Body, 200, response.Headers, true, false⟩,
          afterGet stored callURL) := by
  have hN : N < 2 ^ 63 := by omega
  apply cache_round_trip_numeral rclient cache t now response callURL (decimal N) (N : Int)
    hcache hsize hheader (strconvAtoi_decimal N hN) (by omega) _ hnow
  unfold timeSecond
  omega

/-- C4 (amended) at a concrete call: `max-age=10` stored at instant 0 and read back
one nanosecond before the ten seconds are over. -/
theorem cache_round_trip_witness :
    ∃ stored : rClient,
      setResponseInCache (sampleCachingPool false) 0
          ⟨"body", 200, some [("Cache-Control", ["max-age=10"])], false, false⟩ "http://api/y"
        = .ok stored ∧
      getResponseFromCache stored 9999999999 "http://api/y" =
        .ok (some ⟨"body", 200, some [("Cache-Control", ["max-age=10"])], true, false⟩,
          afterGet stored "http://api/y") :=
  cache_round_trip (sampleCachingPool false)
    ⟨2, [("http://api/x", ⟨"cached", some [("Cache-Control", ["max-age=1"])], 100⟩)]⟩
    0 9999999999 ⟨"body", 200, some [("Cache-Control", ["max-age=10"])], false, false⟩
    "http://api/y" 10 rfl (by decide) (by decide) (by decide) (by decide) (by decide)

/-- C4 as stated fails for a large `N`: `max-age=9223372037` stored at instant 0
expires in the past, because `time.Second * time.Duration(N)` wraps around in
int64, and a lookup at instant 0, long before `N` seconds have passed, misses. -/
theorem cache_round_trip_overflow_counterexample :
    decimal 9223372037 = "9223372037" ∧ (0 : Int) < 0 + 9223372037 * timeSecond ∧
    setResponseInCache (sampleCachingPool false) 0
        ⟨"body", 200, some [("Cache-Control", ["max-age=9223372037"])], false, false⟩
        "http://api/y"
      = .ok { sampleCachingPool false with cache := some ⟨2,
          [("http://api/y",
              ⟨"body", some [("Cache-Control", ["max-age=9223372037"])], -9223372036709551616⟩),
            ("http://api/x", ⟨"cached", some [("Cache-Control", ["max-age=1"])], 100⟩)]⟩ } ∧
    (getResponseFromCache { sampleCachingPool false with cache := some ⟨2,
          [("http://api/y",
              ⟨"body", some [("Cache-Control", ["max-age=9223372037"])], -9223372036709551616⟩),
            ("http://api/x", ⟨"cached", some [("Cache-Control", ["max-age=1"])], 100⟩)]⟩ }
        0 "http://api/y").map Prod.fst = .ok none := by
  decide

/-! ## Request executor: the path past the mock registry -/

theorem getResponseFromCache_eq_cacheLookup (rclient : rClient) (cache : lruCache) (now : Int)
    (callURL : String) (hcache : rclient.cache = some cache) :
    getResponseFromCache rclient now callURL =
      .ok (cacheLookup rclient now callURL, afterGet rclient callURL) := by
  rw [getResponseFromCache_eq rclient cache now callURL hcache]
  unfold cacheLookup cachePeek
  rw [hcache]
  simp only
  cases hp : cache.Peek callURL with
  | none =>
    have : afterGet rclient callURL = rclient := by
      unfold afterGet
      rw [hcache]
      unfold lruCache.Get
      unfold lruCache.Peek at hp
      simp only [Option.map_some', hp]
      cases rclient
      simp_all
    rw [this]
  | some element =>
    simp only
    split
    · rfl
    · split <;> rfl

theorem performRequest_unmocked (env : Env) (s : State) (method callURL body : String)
    (headers : GoMap String) (key : String) (rclient : rClient) (pools : Pools)
    (hpool : getPool env.regexpMatch env.mapOrder s.pools callURL = .ok (key, rclient, pools))
    (hmock : s.useMock = true →
      searchMockCall env.regexpMatch s.mocks method (resolveURL rclient callURL) headers body
        = none) :
    performRequest env s method callURL body headers =
      performRequestLive env key rclient pools method (resolveURL rclient callURL) body
        headers := by
  unfold performRequest
  rw [hpool]
  simp only
  cases huse : s.useMock with
  | false => simp
  | true => simp [hmock huse]

theorem performRequestLive_eq (env : Env) (key : String) (rclient : rClient) (pools : Pools)
    (method callURL body : String) (headers : GoMap String) :
    performRequestLive env key rclient pools method callURL body headers =
      if method = MethodGet ∧ rclient.cache.isSome = true then
        if isLiveHit (cacheLookup rclient env.nowLookup callURL) = true then
          .ok ⟨cacheLookup rclient env.nowLookup callURL, none, none,
            assocInsert key (afterGet rclient callURL) pools⟩
        else
          performRequestSend env true key (afterGet rclient callURL)
            (assocInsert key (afterGet rclient callURL) pools)
            (cacheLookup rclient env.nowLookup callURL) method callURL body headers
      else performRequestSend env false key rclient pools none method callURL body headers := by
  unfold performRequestLive
  by_cases hw : method = MethodGet ∧ rclient.cache.isSome = true
  · rw [if_pos hw]
    obtain ⟨cache, hcache⟩ := Option.isSome_iff_exists.1 hw.2
    simp only [hw.1, hcache, Option.isSome_some, Bool.and_self, decide_True, if_true]
    rw [getResponseFromCache_eq_cacheLookup rclient cache env.nowLookup callURL hcache]
  · rw [if_neg hw]
    have : (decide (method = MethodGet) && rclient.cache.isSome) = false := by
      by_cases hm : method = MethodGet
      · have : rclient.cache.isSome = false := by
          cases h : rclient.cache.isSome
          · rfl
          · exact absurd ⟨hm, h⟩ hw
        simp [this]
      · simp [hm]
    simp only [this, Bool.false_eq_true, if_false]

theorem performRequestSend_eq (env : Env) (withCache : Bool) (key : String) (rclient : rClient)
    (pools : Pools) (cachedResponse : Option Response) (method callURL body : String)
    (headers : GoMap String) (response : Option httpResponse) (error : Option GoError)
    (hreq : env.newRequest method callURL = none)
    (hdo : env.clientDo rclient.client (requestFor method callURL body headers)
      = (response, error)) :
    performRequestSend env withCache key rclient pools cachedResponse method callURL body headers =
      match classify response error with
      | .error p => .error p
      | .ok (rcResponse, error') =>
        finish env.nowStore withCache key rclient pools cachedResponse callURL
          (requestFor method callURL body headers) rcResponse error' := by
  unfold performRequestSend
  unfold requestFor at hdo ⊢
  rw [hreq]
  simp only [hdo]

theorem classify_error (response : Option httpResponse) (e : GoError)
    (hnot : isNotFollowRedirect (some e) = false) :
    classify response (some e) = .ok (⟨"", 0, none, false, false⟩, some e) := by
  unfold classify
  simp only [hnot, Bool.false_eq_true, if_false]

theorem classify_redirect (response : httpResponse) :
    classify (some response) (some (.urlError .notFollowRedirectError)) =
      .ok (⟨"", response.StatusCode, response.Header, false, false⟩, none) := by
  simp [classify, isNotFollowRedirect]

theorem isLiveHit_cacheLookup_false (rclient : rClient) (now : Int) (key : String)
    (hexpired : ∀ element, cachePeek rclient key = some element → ¬ now < element.Expires) :
    isLiveHit (cacheLookup rclient now key) = false := by
  unfold cacheLookup
  cases hp : cachePeek rclient key with
  | none => rfl
  | some element =>
    simp only [hexpired element hp, if_false]
    split <;> rfl

theorem cacheLookup_none (rclient : rClient) (now : Int) (key : String)
    (hexpired : ∀ element, cachePeek rclient key = some element → ¬ now < element.Expires)
    (hnostale : rclient.stale = false ∨ cachePeek rclient key = none) :
    cacheLookup rclient now key = none := by
  unfold cacheLookup
  cases hp : cachePeek rclient key with
  | none => rfl
  | some element =>
    rcases hnostale with h | h
    · simp [hexpired element hp, h]
    · rw [hp] at h
      cases h

theorem cacheLookup_stale (rclient : rClient) (now : Int) (key : String) (element : cacheElement)
    (hpeek : cachePeek rclient key = some element) (hexpired : ¬ now < element.Expires)
    (hstale : rclient.stale = true) :
    cacheLookup rclient now key = some ⟨element.Content, 200, element.Headers, true, true⟩ := by
  unfold cacheLookup
  rw [hpeek]
  simp only [hexpired, if_false, hstale, if_true]

/-- Past the mock registry and the live cache hit, with a request that can be
built, `performRequest` is `finish` applied to the classified outcome of the
client call. -/
theorem performRequest_reaches_network (env : Env) (s : State) (method callURL body : String)
    (headers : GoMap String) (key : String) (rclient : rClient) (pools : Pools)
    (response : Option httpResponse) (error : Option GoError)
    (hpool : getPool env.regexpMatch env.mapOrder s.pools callURL = .ok (key, rclient, pools))
    (hmock : s.useMock = true →
      searchMockCall env.regexpMatch s.mocks method (resolveURL rclient callURL) headers body
        = none)
    (hexpired : method = MethodGet →
      ∀ element, cachePeek rclient (resolveURL rclient callURL) = some element →
        ¬ env.nowLookup < element.Expires)
    (hreq : env.newRequest method (resolveURL rclient callURL) = none)
    (hdo : env.clientDo rclient.client
      (requestFor method (resolveURL rclient callURL) body headers) = (response, error)) :
    performRequest env s method callURL body headers =
      match classify response error with
      | .error p => .error p
      | .ok (rcResponse, error') =>
        if method = MethodGet ∧ rclient.cache.isSome = true then
          finish env.nowStore true key (afterGet rclient (resolveURL rclient callURL))
            (assocInsert key (afterGet rclient (resolveURL rclient callURL)) pools)
            (cacheLookup rclient env.nowLookup (resolveURL rclient callURL))
            (resolveURL rclient callURL)
            (requestFor method (resolveURL rclient callURL) body headers) rcResponse error'
        else
          finish env.nowStore false key rclient pools none (resolveURL rclient callURL)
            (requestFor method (resolveURL rclient callURL) body headers) rcResponse error' := by
  rw [performRequest_unmocked env s method callURL body headers key rclient pools hpool hmock,
    performRequestLive_eq]
  by_cases hw : method = MethodGet ∧ rclient.cache.isSome = true
  · simp only [hw, and_self, if_true]
    rw [isLiveHit_cacheLookup_false rclient env.nowLookup _ (hexpired hw.1)]
    simp only [Bool.false_eq_true, if_false]
    rw [performRequestSend_eq env true key (afterGet rclient _) _ _ _ _ body headers response
      error (by simpa [hw.1] using hreq) (by simpa [hw.1, afterGet] using hdo)]
  · simp only [hw, if_false]
    rw [performRequestSend_eq env false key rclient _ _ _ _ body headers response error hreq hdo]

/-! ## Stale fallback -/

/-- How the outcomes of the client call are classified (lines 301-332): a transport
error gives Code 0; a response whose body is read gives its status code, body
and headers; a response whose body cannot be read gives its status code with
the read error.  So the Code is other than 200 for a transport error, and for a
response, read or not, exactly when its status is other than 200. -/
theorem classify_codes :
    (∀ response e, isNotFollowRedirect (some e) = false →
      classify response (some e) = .ok (⟨"", 0, none, false, false⟩, some e)) ∧
    (∀ (response : httpResponse) (byteBody : String), response.Body = .ok byteBody →
      classify (some response) none =
        .ok (⟨byteBody, response.StatusCode, response.Header, false, false⟩, none)) ∧
    (∀ (response : httpResponse) (e : GoError), response.Body = .error e →
      classify (some response) none =
        .ok (⟨"", response.StatusCode, none, false, false⟩, some e)) := by
  refine ⟨fun response e h => classify_error response e h, ?_, ?_⟩
  · intro response byteBody hbody
    simp [classify, isNotFollowRedirect, hbody]
  · intro response e hbody
    simp [classify, isNotFollowRedirect, hbody]

/-- C5 (amended): for every GET through a pool with a cache and the stale flag
set, if the cache holds an expired entry for the resolved URL and the outcome of
the client call is classified with a Code other than 200 (a status other than
200, a transport error, or a body-read error on a response whose status is
other than 200), `performRequest` returns the Response built from the expired
entry (its content and headers, CachedContent and Staled set) with a nil error. -/
theorem performRequest_stale_fallback (env : Env) (s : State) (callURL body : String)
    (headers : GoMap String) (key : String) (rclient : rClient) (pools : Pools)
    (response : Option httpResponse) (error error' : Option GoError) (rcResponse : Response)
    (element : cacheElement)
    (hpool : getPool env.regexpMatch env.mapOrder s.pools callURL = .ok (key, rclient, pools))
    (hmock : s.useMock = true →
      searchMockCall env.regexpMatch s.mocks MethodGet (resolveURL rclient callURL) headers body
        = none)
    (hcache : rclient.cache.isSome = true) (hstale : rclient.stale = true)
    (hpeek : cachePeek rclient (resolveURL rclient callURL) = some element)
    (hexpired : ¬ env.nowLookup < element.Expires)
    (hreq : env.newRequest MethodGet (resolveURL rclient callURL) = none)
    (hdo : env.clientDo rclient.client
      (requestFor MethodGet (resolveURL rclient callURL) body headers) = (response, error))
    (hclass : classify response error = .ok (rcResponse, error'))
    (hcode : rcResponse.Code ≠ 200) :
    performRequest env s MethodGet callURL body headers =
      .ok ⟨some ⟨element.Content, 200, element.Headers, true, true⟩, none,
        some (requestFor MethodGet (resolveURL rclient callURL) body headers),
        assocInsert key (afterGet rclient (resolveURL rclient callURL)) pools⟩ := by
  have hexp : MethodGet = MethodGet →
      ∀ el, cachePeek rclient (resolveURL rclient callURL) = some el →
        ¬ env.nowLookup < el.Expires := by
    intro _ el hel
    rw [hpeek] at hel
    cases hel
    exact hexpired
  rw [performRequest_reaches_network env s MethodGet callURL body headers key rclient pools
    response error hpool hmock hexp hreq hdo, hclass]
  simp only [hcache, and_self, if_true]
  rw [cacheLookup_stale rclient _ _ element hpeek hexpired hstale]
  unfold finish
  have hstale' : (afterGet rclient (resolveURL rclient callURL)).stale = true := hstale
  simp [StatusOK, hcode, hstale']

/-- C5 (amended) at a concrete call: the entry of `http://api/x` expired at instant
100, the GET is sent at instant 150 and reading the body of the 503 answer fails. -/
theorem performRequest_stale_fallback_witness :
    performRequest
        (sampleEnv 150 (some ⟨503, some [], .error (.other "unexpected EOF")⟩, none))
        ⟨[("api", sampleCachingPool true)], [], true⟩ MethodGet "http://api/x" "" (some [])
      = .ok ⟨some ⟨"cached", 200, some [("Cache-Control", ["max-age=1"])], true, true⟩, none,
          some (requestFor MethodGet (resolveURL (sampleCachingPool true) "http://api/x") ""
            (some [])),
          assocInsert "api"
            (afterGet (sampleCachingPool true)
              (resolveURL (sampleCachingPool true) "http://api/x"))
            [("api", sampleCachingPool true)]⟩ :=
  performRequest_stale_fallback
    (sampleEnv 150 (some ⟨503, some [], .error (.other "unexpected EOF")⟩, none))
    ⟨[("api", sampleCachingPool true)], [], true⟩ "http://api/x" "" (some []) "api"
    (sampleCachingPool true) [("api", sampleCachingPool true)]
    (some ⟨503, some [], .error (.other "unexpected EOF")⟩) none
    (some (.other "unexpected EOF")) ⟨"", 503, none, false, false⟩
    ⟨"cached", some [("Cache-Control", ["max-age=1"])], 100⟩
    (by decide) (by decide) (by decide) (by decide) (by decide) (by decide) (by decide)
    (by decide) (by decide) (by decide)

/-- C5 as stated fails at a body-read error on a 200 response: a GET through a pool
with a cache and the stale flag set, whose entry for the URL expired at instant
100, sent at instant 150; the client returns status 200 and reading the body
fails.  The Response keeps the Code 200, the fallback is keyed on the Code, and
the call returns the empty 200 Response with the read error, not the stale entry. -/
theorem performRequest_stale_fallback_read_error_counterexample :
    performRequest
        (sampleEnv 150
          (some ⟨200, some [("Content-Type", ["application/json"])],
            .error (.other "unexpected EOF")⟩, none))
        ⟨[("api", sampleCachingPool true)], [], true⟩ "GET" "http://api/x" "" (some [])
      = .ok ⟨some ⟨"", 200, none, false, false⟩, some (.other "unexpected EOF"),
          some ⟨"GET", "http://api/x", none, some []⟩,
          [("api", sampleCachingPool true)]⟩ := by
  decide

/-! ## `max-age` parsing -/

/-- Where `setResponseInCache` stores nothing: no Cache-Control header, or a
`max-age` that `getMaxAge` reads as zero or negative.  The pool, and with it every
cache entry, is returned as it was. -/
theorem setResponseInCache_no_store (rclient : rClient) (now : Int) (response : Response)
    (callURL : String)
    (h : response.Headers.lookup "Cache-Control" = none ∨
      ∃ cacheControl value err, response.Headers.lookup "Cache-Control" = some cacheControl ∧
        getMaxAge cacheControl = .ok (value, err) ∧ value ≤ 0) :
    setResponseInCache rclient now response callURL = .ok rclient := by
  unfold setResponseInCache
  rcases h with h | ⟨cacheControl, value, err, h1, h2, h3⟩
  · rw [h]
  · rw [h1]
    simp only [h2]
    rw [if_neg (by omega)]

/-- The values of C6 that are handled: `max-age=0`, `max-age=abc` and
`max-age=10, public` are read as 0 (the last two with a syntax error that the
caller discards), so nothing is stored for them. -/
theorem getMaxAge_non_positive_examples :
    getMaxAge ["max-age=0"] = .ok (0, none) ∧
    getMaxAge ["max-age=abc"] = .ok (0, some .errSyntax) ∧
    getMaxAge ["max-age=10, public"] = .ok (0, some .errSyntax) ∧
    getMaxAge ["max-age=-5"] = .ok (-5, none) ∧
    setResponseInCache (sampleCachingPool false) 50
        ⟨"new", 200, some [("Cache-Control", ["max-age=10, public"])], false, false⟩
        "http://api/x" = .ok (sampleCachingPool false) := by
  decide

/-- C6 fails at a `max-age` without `=`: `strings.Split(value, "=")[1]` is out of
range and `setResponseInCache` panics instead of completing.  It also fails at a
`max-age` beyond the range of `int`: `strconv.Atoi` answers the largest `int`
together with a range error, the error is discarded, and the entry stored for the
URL is overwritten by one that is already expired. -/
theorem setResponseInCache_fails_on_malformed_max_age :
    setResponseInCache (sampleCachingPool false) 50
        ⟨"new", 200, some [("Cache-Control", ["max-age"])], false, false⟩ "http://api/x"
      = .error .indexOutOfRange ∧
    strconvAtoi "99999999999999999999" = (9223372036854775807, some .errRange) ∧
    setResponseInCache (sampleCachingPool false) 50
        ⟨"new", 200, some [("Cache-Control", ["max-age=99999999999999999999"])], false, false⟩
        "http://api/x"
      = .ok { sampleCachingPool false with cache := some ⟨2, [("http://api/x",
          ⟨"new", some [("Cache-Control", ["max-age=99999999999999999999"])],
            50 - 1000000000⟩)]⟩ } := by
  decide

/-- The part of C7 that holds: a single value `max-age=N` or `Max-Age=N` is read as
`N`, and a list without `max-age` gives 0 with no error. -/
theorem getMaxAge_handled_examples :
    getMaxAge ["max-age=30"] = .ok (30, none) ∧
    getMaxAge ["Max-Age=30"] = .ok (30, none) ∧
    getMaxAge ["no-cache", "no-store"] = .ok (0, none) ∧
    getMaxAge [] = .ok (0, none) := by
  decide

/-- C7 fails when the value that contains `max-age` is not the first one: the loop
finds it, but the return statement splits `cacheControlValues[0]`.  With
`["no-cache", "max-age=30"]` the first value has no `=` and the call panics;
with `["s-maxage=7", "max-age=30"]` the call returns 7, the number of the
other directive. -/
theorem getMaxAge_reads_first_value_only :
    getMaxAge ["no-cache", "max-age=30"] = .error .indexOutOfRange ∧
    getMaxAge ["s-maxage=7", "max-age=30"] = .ok (7, none) := by
  decide

/-! ## Redirects and transport errors -/

/-- C8 (amended): when the client attempt ends with the `url.Error` that wraps the
redirect sentinel, the redirecting response carries a status other than 200 and no
stale entry rescues the call, `performRequest` returns a nil error and a Response
with an empty Body, the status code of the redirecting response as Code, and its
headers. -/
theorem performRequest_redirect_suppressed (env : Env) (s : State)
    (method callURL body : String) (headers : GoMap String) (key : String) (rclient : rClient)
    (pools : Pools) (response : httpResponse)
    (hpool : getPool env.regexpMatch env.mapOrder s.pools callURL = .ok (key, rclient, pools))
    (hmock : s.useMock = true →
      searchMockCall env.regexpMatch s.mocks method (resolveURL rclient callURL) headers body
        = none)
    (hexpired : method = MethodGet →
      ∀ element, cachePeek rclient (resolveURL rclient callURL) = some element →
        ¬ env.nowLookup < element.Expires)
    (hreq : env.newRequest method (resolveURL rclient callURL) = none)
    (hdo : env.clientDo rclient.client
        (requestFor method (resolveURL rclient callURL) body headers)
      = (some response, some (.urlError .notFollowRedirectError)))
    (hstatus : response.StatusCode ≠ 200)
    (hnostale : method ≠ MethodGet ∨ rclient.stale = false ∨
      cachePeek rclient (resolveURL rclient callURL) = none) :
    performRequest env s method callURL body headers =
      .ok ⟨some ⟨"", response.StatusCode, response.Header, false, false⟩, none,
        some (requestFor method (resolveURL rclient callURL) body headers),
        poolsAfterLookup key rclient pools method (resolveURL rclient callURL)⟩ := by
  rw [performRequest_reaches_network env s method callURL body headers key rclient pools
    (some response) _ hpool hmock hexpired hreq hdo, classify_redirect]
  simp only
  unfold finish poolsAfterLookup
  by_cases hw : method = MethodGet ∧ rclient.cache.isSome = true
  · rw [cacheLookup_none rclient _ _ (hexpired hw.1)
      (hnostale.resolve_left (fun h => h hw.1))]
    simp [hw, StatusOK, hstatus]
  · simp [hw]

/-- C8 (amended) at a concrete call: a GET through the default pool that is answered
with a 302. -/
theorem performRequest_redirect_suppressed_witness :
    performRequest
        (sampleEnv 0 (some ⟨302, some [("Location", ["http://b/"])], .ok ""⟩,
          some (.urlError .notFollowRedirectError)))
        ⟨[], [], true⟩ "GET" "http://a/" "" (some []) =
      .ok ⟨some ⟨"", 302, some [("Location", ["http://b/"])], false, false⟩, none,
        some (requestFor "GET" (resolveURL newDefaultPool "http://a/") "" (some [])),
        poolsAfterLookup "default" newDefaultPool [("default", newDefaultPool)] "GET"
          (resolveURL newDefaultPool "http://a/")⟩ :=
  performRequest_redirect_suppressed
    (sampleEnv 0 (some ⟨302, some [("Location", ["http://b/"])], .ok ""⟩,
      some (.urlError .notFollowRedirectError)))
    ⟨[], [], true⟩ "GET" "http://a/" "" (some []) "default" newDefaultPool
    [("default", newDefaultPool)] ⟨302, some [("Location", ["http://b/"])], .ok ""⟩
    (by decide) (by decide) (by decide) (by decide) (by decide) (by decide) (by decide)

/-- C8 as stated fails: a GET through the default pool, with no mock and no cache,
that the server answers with a 302 returns a nil error and an empty Body, but
the Code is 302, not 0. -/
theorem performRequest_redirect_keeps_status_counterexample :
    performRequest
        (sampleEnv 0 (some ⟨302, some [("Location", ["http://b/"])], .ok ""⟩,
          some (.urlError .notFollowRedirectError)))
        ⟨[], [], true⟩ "GET" "http://a/" "" (some []) =
      .ok ⟨some ⟨"", 302, some [("Location", ["http://b/"])], false, false⟩, none,
        some ⟨"GET", "http://a/", none, some []⟩, [("default", newDefaultPool)]⟩ := by
  decide

/-- C9 (amended): when the client attempt fails with an error other than the
redirect sentinel, and the pool either does not allow staleness or holds no
entry for the URL, `performRequest` returns that error together with the
Response with empty Body, Code 0, nil Headers, CachedContent and Staled unset.
The registry afterwards is the one pool selection left, except that a GET
through a pool with a cache stores the pool back after its lookup: that pool
has for every URL the entry (content, headers and expiry) it had before, and
only the recency order of its cache can differ, the looked-up entry having
moved to the front. -/
theorem performRequest_transport_error (env : Env) (s : State)
    (method callURL body : String) (headers : GoMap String) (key : String) (rclient : rClient)
    (pools : Pools) (response : Option httpResponse) (e : GoError)
    (hpool : getPool env.regexpMatch env.mapOrder s.pools callURL = .ok (key, rclient, pools))
    (hmock : s.useMock = true →
      searchMockCall env.regexpMatch s.mocks method (resolveURL rclient callURL) headers body
        = none)
    (hexpired : method = MethodGet →
      ∀ element, cachePeek rclient (resolveURL rclient callURL) = some element →
        ¬ env.nowLookup < element.Expires)
    (hreq : env.newRequest method (resolveURL rclient callURL) = none)
    (hdo : env.clientDo rclient.client
        (requestFor method (resolveURL rclient callURL) body headers)
      = (response, some e))
    (hnot : isNotFollowRedirect (some e) = false)
    (hnostale : method ≠ MethodGet ∨ rclient.stale = false ∨
      cachePeek rclient (resolveURL rclient callURL) = none) :
    performRequest env s method callURL body headers =
      .ok ⟨some ⟨"", 0, none, false, false⟩, some e,
        some (requestFor method (resolveURL rclient callURL) body headers),
        poolsAfterLookup key rclient pools method (resolveURL rclient callURL)⟩ ∧
    (∀ k, cachePeek (afterGet rclient (resolveURL rclient callURL)) k = cachePeek rclient k) := by
  refine ⟨?_, fun k => cachePeek_afterGet rclient _ k⟩
  rw [performRequest_reaches_network env s method callURL body headers key rclient pools
    response _ hpool hmock hexpired hreq hdo, classify_error response e hnot]
  simp only
  unfold finish poolsAfterLookup
  by_cases hw : method = MethodGet ∧ rclient.cache.isSome = true
  · rw [cacheLookup_none rclient _ _ (hexpired hw.1)
      (hnostale.resolve_left (fun h => h hw.1))]
    simp [hw, StatusOK]
  · simp [hw]

/-- C9 (amended) at a concrete call: a GET through a pool with a cache that does not serve
stale entries, whose entry for the URL has expired, and a client that times out. -/
theorem performRequest_transport_error_witness :
    performRequest (sampleEnv 150 (none, some (.urlError (.other "timeout"))))
        ⟨[("api", sampleCachingPool false)], [], true⟩ "GET" "http://api/x" "" (some []) =
      .ok ⟨some ⟨"", 0, none, false, false⟩, some (.urlError (.other "timeout")),
        some (requestFor "GET" (resolveURL (sampleCachingPool false) "http://api/x") ""
          (some [])),
        poolsAfterLookup "api" (sampleCachingPool false) [("api", sampleCachingPool false)]
          "GET" (resolveURL (sampleCachingPool false) "http://api/x")⟩ ∧
    (∀ k, cachePeek (afterGet (sampleCachingPool false)
        (resolveURL (sampleCachingPool false) "http://api/x")) k =
      cachePeek (sampleCachingPool false) k) :=
  performRequest_transport_error (sampleEnv 150 (none, some (.urlError (.other "timeout"))))
    ⟨[("api", sampleCachingPool false)], [], true⟩ "GET" "http://api/x" "" (some []) "api"
    (sampleCachingPool false) [("api", sampleCachingPool false)] none
    (.urlError (.other "timeout")) (by decide) (by decide) (by decide) (by decide) (by decide)
    (by decide) (by decide)

/-- C9 as stated fails on the recency order of the cache: a GET of `http://api/x`
that times out, through a pool whose full cache holds the expired entry of that
URL as its least recently used one, returns the error and the empty Response,
but `cache.Get` has moved the expired entry to the front.  The cache is no
longer the one it was, and the next entry added evicts `http://api/a`, where
before the call it would have evicted `http://api/x`. -/
theorem performRequest_transport_error_recency_counterexample :
    performRequest (sampleEnv 150 (none, some (.urlError (.other "timeout"))))
        ⟨[("api", sampleFullPool)], [], true⟩ "GET" "http://api/x" "" (some []) =
      .ok ⟨some ⟨"", 0, none, false, false⟩, some (.urlError (.other "timeout")),
        some ⟨"GET", "http://api/x", none, some []⟩,
        [("api", { sampleFullPool with cache := some ⟨2,
          [("http://api/x", ⟨"x", none, 100⟩), ("http://api/a", ⟨"a", none, 1000⟩)]⟩ })]⟩ ∧
    sampleFullPool.cache ≠ some ⟨2,
      [("http://api/x", ⟨"x", none, 100⟩), ("http://api/a", ⟨"a", none, 1000⟩)]⟩ ∧
    ((⟨2, [("http://api/a", ⟨"a", none, 1000⟩), ("http://api/x", ⟨"x", none, 100⟩)]⟩ :
        lruCache).Add "http://api/n" ⟨"n", none, 2000⟩).items =
      [("http://api/n", ⟨"n", none, 2000⟩), ("http://api/a", ⟨"a", none, 1000⟩)] ∧
    ((⟨2, [("http://api/x", ⟨"x", none, 100⟩), ("http://api/a", ⟨"a", none, 1000⟩)]⟩ :
        lruCache).Add "http://api/n" ⟨"n", none, 2000⟩).items =
      [("http://api/n", ⟨"n", none, 2000⟩), ("http://api/x", ⟨"x", none, 100⟩)] := by
  decide

/-! ## Pool selection -/

theorem getPoolLoop_unique (regexpMatch : String → String → Option Bool) (callURL : String)
    (pattern : String) (pool : rClient) (l : List (String × rClient))
    (hmem : (pattern, pool) ∈ l) (hmatch : regexpMatch pattern callURL = some true)
    (hothers : ∀ p ∈ l, p ≠ (pattern, pool) → regexpMatch p.1 callURL = some false) :
    getPoolLoop regexpMatch callURL l = .ok (some (pattern, pool)) := by
  induction l with
  | nil => cases hmem
  | cons e rest ih =>
    obtain ⟨k, v⟩ := e
    by_cases he : (k, v) = (pattern, pool)
    · cases he
      simp only [getPoolLoop, hmatch]
    · have hfalse := hothers (k, v) (List.mem_cons_self _ _) he
      simp only at hfalse
      simp only [getPoolLoop, hfalse]
      apply ih
      · rcases List.mem_cons.1 hmem with h | h
        · exact absurd h.symm he
        · exact h
      · intro p hp hne
        exact hothers p (List.mem_cons_of_mem _ hp) hne

theorem getPoolLoop_none (regexpMatch : String → String → Option Bool) (callURL : String)
    (l : List (String × rClient))
    (hnone : ∀ p ∈ l, regexpMatch p.1 callURL = some false) :
    getPoolLoop regexpMatch callURL l = .ok none := by
  induction l with
  | nil => rfl
  | cons e rest ih =>
    obtain ⟨k, v⟩ := e
    have hfalse := hnone (k, v) (List.mem_cons_self _ _)
    simp only at hfalse
    simp only [getPoolLoop, hfalse]
    exact ih (fun p hp => hnone p (List.mem_cons_of_mem _ hp))

theorem assocLookup_assocInsert_self {α : Type} (k : String) (v : α) (l : List (String × α)) :
    assocLookup k (assocInsert k v l) = some v := by
  induction l with
  | nil => simp [assocInsert, assocLookup]
  | cons e rest ih =>
    obtain ⟨k', v'⟩ := e
    by_cases hk : k' = k
    · simp [assocInsert, assocLookup, hk]
    · simp [assocInsert, assocLookup, hk, ih]

/-! ## Header equality -/

theorem assocLookup_some_mem {α : Type} (k : String) (v : α) (l : List (String × α))
    (h : assocLookup k l = some v) : (k, v) ∈ l := by
  induction l with
  | nil => cases h
  | cons e rest ih =>
    obtain ⟨k', v'⟩ := e
    unfold assocLookup at h
    by_cases hk : k' = k
    · rw [if_pos hk] at h
      cases h
      rw [hk]
      exact List.mem_cons_self _ _
    · rw [if_neg hk] at h
      exact List.mem_cons_of_mem _ (ih h)

theorem assocLookup_of_mem {α : Type} (k : String) (v : α) (l : List (String × α))
    (hd : distinctKeys l) (h : (k, v) ∈ l) : assocLookup k l = some v := by
  induction l with
  | nil => cases h
  | cons e rest ih =>
    obtain ⟨k', v'⟩ := e
    unfold distinctKeys at hd
    simp only [List.map_cons, List.nodup_cons] at hd
    unfold assocLookup
    rcases List.mem_cons.1 h with heq | hmem
    · cases heq
      rw [if_pos rfl]
    · have hne : ¬ k' = k := by
        intro hk
        apply hd.1
        rw [hk]
        exact List.mem_map.2 ⟨(k, v), hmem, rfl⟩
      rw [if_neg hne]
      exact ih hd.2 hmem

theorem assocLookup_eq_none_iff {α : Type} (k : String) (l : List (String × α)) :
    assocLookup k l = none ↔ k ∉ l.map Prod.fst := by
  induction l with
  | nil => simp [assocLookup]
  | cons e rest ih =>
    obtain ⟨k', v'⟩ := e
    unfold assocLookup
    by_cases hk : k' = k
    · simp [hk]
    · rw [if_neg hk, ih]
      simp only [List.map_cons, List.mem_cons, not_or]
      exact ⟨fun h => ⟨fun h' => hk h'.symm, h⟩, fun h => h.2⟩

theorem sameHeadersLoop_iff (h2 l : List (String × String)) :
    sameHeadersLoop h2 l = true ↔ ∀ e ∈ l, assocLookup e.1 h2 = some e.2 := by
  induction l with
  | nil => simp [sameHeadersLoop]
  | cons e rest ih =>
    obtain ⟨key, value⟩ := e
    unfold sameHeadersLoop
    simp only [List.mem_cons, forall_eq_or_imp]
    cases hl : assocLookup key h2 with
    | none => simp
    | some val =>
      by_cases hv : val = value
      · simp [hv, ih]
      · simp [hv]

theorem sameHeaders_some_iff (l1 l2 : List (String × String))
    (hd1 : distinctKeys l1) (hd2 : distinctKeys l2) :
    sameHeaders (some l1) (some l2) = true ↔ ∀ k, assocLookup k l1 = assocLookup k l2 := by
  unfold sameHeaders
  simp only [ne_eq, ite_not, Bool.if_false_right, Bool.and_eq_true, decide_eq_true_eq,
    sameHeadersLoop_iff]
  constructor
  · rintro ⟨hlen, hall⟩ k
    have hsub : l1.map Prod.fst ⊆ l2.map Prod.fst := by
      intro key hkey
      obtain ⟨e, he, rfl⟩ := List.mem_map.1 hkey
      exact List.mem_map.2 ⟨(e.1, e.2), assocLookup_some_mem _ _ _ (hall e he), rfl⟩
    have hperm : (l1.map Prod.fst).Perm (l2.map Prod.fst) :=
      (List.subperm_of_subset hd1 hsub).perm_of_length_le (by simp [hlen])
    cases h1 : assocLookup k l1 with
    | none =>
      have : k ∉ l2.map Prod.fst := fun h =>
        (assocLookup_eq_none_iff k l1).1 h1 (hperm.mem_iff.2 h)
      exact ((assocLookup_eq_none_iff k l2).2 this).symm
    | some v =>
      exact (hall (k, v) (assocLookup_some_mem k v l1 h1)).symm
  · intro hall
    have hmem : ∀ a, a ∈ l1.map Prod.fst ↔ a ∈ l2.map Prod.fst := by
      intro a
      have h1 := assocLookup_eq_none_iff a l1
      have h2 := assocLookup_eq_none_iff a l2
      rw [hall a] at h1
      constructor
      · intro ha
        by_contra hna
        exact (h1.1 (h2.2 hna)) ha
      · intro ha
        by_contra hna
        exact (h2.1 (h1.2 hna)) ha
    have hperm : (l1.map Prod.fst).Perm (l2.map Prod.fst) :=
      (List.perm_ext_iff_of_nodup hd1 hd2).2 hmem
    refine ⟨by simpa using hperm.length_eq, ?_⟩
    intro e he
    rw [← hall e.1]
    exact assocLookup_of_mem e.1 e.2 l1 hd1 he

/-- C11 (amended): for two header mappings, each nil or with distinct keys,
`sameHeaders` returns true exactly when both are nil, or both are non-nil and
every key has the same value (or no value) in both; so it returns false when a
key is in only one of them or has different values, whatever the insertion
order, and also when exactly one of them is nil. -/
theorem sameHeaders_iff (h1 h2 : GoMap String) (hw1 : h1.wellFormed) (hw2 : h2.wellFormed) :
    sameHeaders h1 h2 = true ↔
      (h1.isSome = h2.isSome ∧ ∀ k, h1.lookup k = h2.lookup k) := by
  cases h1 with
  | none =>
    cases h2 with
    | none => simp [sameHeaders]
    | some l2 => simp [sameHeaders]
  | some l1 =>
    cases h2 with
    | none => simp [sameHeaders]
    | some l2 =>
      rw [sameHeaders_some_iff l1 l2 hw1 hw2]
      simp [GoMap.lookup]

/-- C11 (amended) at two mappings built from the same headers in different orders. -/
theorem sameHeaders_iff_witness :
    sameHeaders (getHeadersMap [⟨"Accept", "application/json"⟩, ⟨"Encode", "true"⟩])
        (getHeadersMap [⟨"Encode", "true"⟩, ⟨"Accept", "application/json"⟩]) = true ↔
      ((getHeadersMap [⟨"Accept", "application/json"⟩, ⟨"Encode", "true"⟩]).isSome =
          (getHeadersMap [⟨"Encode", "true"⟩, ⟨"Accept", "application/json"⟩]).isSome ∧
        ∀ k, (getHeadersMap [⟨"Accept", "application/json"⟩, ⟨"Encode", "true"⟩]).lookup k =
          (getHeadersMap [⟨"Encode", "true"⟩, ⟨"Accept", "application/json"⟩]).lookup k) :=
  sameHeaders_iff (getHeadersMap [⟨"Accept", "application/json"⟩, ⟨"Encode", "true"⟩])
    (getHeadersMap [⟨"Encode", "true"⟩, ⟨"Accept", "application/json"⟩])
    (by decide) (by decide)

/-- C11 as stated fails for a nil mapping against an empty one: they have the same
(empty) key set and agree on every key, yet `sameHeaders` returns false in both
argument orders, while it returns true for two nil and for two empty mappings. -/
theorem sameHeaders_nil_versus_empty_counterexample :
    (∀ k, GoMap.lookup (none : GoMap String) k = GoMap.lookup (some []) k) ∧
    sameHeaders none (some []) = false ∧ sameHeaders (some []) none = false ∧
    sameHeaders none none = true ∧ sameHeaders (some []) (some []) = true := by
  refine ⟨fun k => rfl, ?_, ?_, ?_, ?_⟩ <;> decide

/-! ## Pattern mocks -/

theorem assocInsert_keys {α : Type} (k : String) (v : α) (l : List (String × α)) (a : String) :
    a ∈ (assocInsert k v l).map Prod.fst ↔ a = k ∨ a ∈ l.map Prod.fst := by
  induction l with
  | nil => simp [assocInsert]
  | cons e rest ih =>
    obtain ⟨k', v'⟩ := e
    unfold assocInsert
    by_cases hk : k' = k
    · rw [if_pos hk]
      simp only [List.map_cons, List.mem_cons, hk]
      tauto
    · rw [if_neg hk]
      simp only [List.map_cons, List.mem_cons, ih]
      tauto

theorem assocInsert_distinctKeys {α : Type} (k : String) (v : α) (l : List (String × α))
    (hd : distinctKeys l) : distinctKeys (assocInsert k v l) := by
  induction l with
  | nil => simp [assocInsert, distinctKeys]
  | cons e rest ih =>
    obtain ⟨k', v'⟩ := e
    unfold distinctKeys at hd ⊢
    simp only [List.map_cons, List.nodup_cons] at hd
    unfold assocInsert
    by_cases hk : k' = k
    · rw [if_pos hk]
      simp only [List.map_cons, List.nodup_cons]
      rw [← hk]
      exact hd
    · rw [if_neg hk]
      simp only [List.map_cons, List.nodup_cons]
      refine ⟨?_, ih hd.2⟩
      intro hmem
      rcases (assocInsert_keys k v rest k').1 hmem with h | h
      · exact hk h
      · exact hd.1 h

theorem getHeadersMap_wellFormed (headers : List Header) :
    (getHeadersMap headers).wellFormed := by
  unfold getHeadersMap GoMap.wellFormed
  simp only
  have hgen : ∀ (hs : List Header) (acc : List (String × String)), distinctKeys acc →
      distinctKeys (hs.foldl (fun m h => assocInsert h.Key h.Value m) acc) := by
    intro hs
    induction hs with
    | nil => intro acc hacc; exact hacc
    | cons h rest ih =>
      intro acc hacc
      exact ih _ (assocInsert_distinctKeys h.Key h.Value acc hacc)
  exact hgen headers [] (by simp [distinctKeys])

theorem sameHeaders_getHeadersMap_self (headers : List Header) :
    sameHeaders (getHeadersMap headers) (getHeadersMap headers) = true := by
  have hd := getHeadersMap_wellFormed headers
  unfold getHeadersMap at hd ⊢
  exact (sameHeaders_some_iff _ _ hd hd).2 (fun _ => rfl)

theorem searchMockCall_append_of_no_match (regexpMatch : String → String → Option Bool)
    (l1 l2 : List mockResponse) (method callURL : String) (headers : GoMap String)
    (body : String)
    (hno : ∀ mock ∈ l1, ¬ ruleApplies regexpMatch method callURL headers body mock) :
    searchMockCall regexpMatch (l1 ++ l2) method callURL headers body =
      searchMockCall regexpMatch l2 method callURL headers body := by
  induction l1 with
  | nil => rfl
  | cons mock rest ih =>
    have hm : ¬ mockMatches regexpMatch method callURL headers body mock = true := fun h =>
      hno mock (List.mem_cons_self _ _) ((mockMatches_iff _ _ _ _ _ _).1 h)
    rw [List.cons_append]
    conv_lhs => unfold searchMockCall
    rw [if_neg hm]
    exact ih (fun m hmem => hno m (List.mem_cons_of_mem _ hmem))

/-- C12: with mocking enabled, after `AddMock(u, m, b, r, hs...)` and
`URLasRegexp(u)`, every call URL that `u` matches as a regular expression resolves
through `searchMockCall(m, callURL, getHeadersMap(hs), b)` to `r`, provided no
earlier rule of the flagged list applies; and every rule that was registered
before with a URL other than `u` is still in its place, unchanged. -/
theorem URLasRegexp_pattern_mock (regexpMatch : String → String → Option Bool) (s : State)
    (u m b : String) (hs : List Header) (r : Response) (callURL : String)
    (huse : s.useMock = true)
    (hmatch : regexpMatch u callURL = some true)
    (hearlier : ∀ mock ∈ (URLasRegexp s u).mocks,
      ¬ ruleApplies regexpMatch m callURL (getHeadersMap hs) b mock) :
    searchMockCall regexpMatch (URLasRegexp (AddMock s u m b r hs) u).mocks m callURL
        (getHeadersMap hs) b = some r ∧
    (∀ (i : Nat) (mock : mockResponse), s.mocks[i]? = some mock → mock.URL ≠ u →
      (URLasRegexp (AddMock s u m b r hs) u).mocks[i]? = some mock) := by
  have hmocks : (URLasRegexp (AddMock s u m b r hs) u).mocks =
      (URLasRegexp s u).mocks ++ [⟨u, true, m, r, getHeadersMap hs, b⟩] := by
    simp [URLasRegexp, AddMock, huse, markAsRegexp]
  constructor
  · rw [hmocks, searchMockCall_append_of_no_match _ _ _ _ _ _ _ hearlier]
    have happ : mockMatches regexpMatch m callURL (getHeadersMap hs) b
        ⟨u, true, m, r, getHeadersMap hs, b⟩ = true := by
      rw [mockMatches_iff]
      exact ⟨rfl, by simpa using hmatch, sameHeaders_getHeadersMap_self hs, rfl⟩
    unfold searchMockCall
    rw [if_pos happ]
  · intro i mock hi hne
    rw [hmocks]
    have hlt : i < s.mocks.length := by
      by_contra hge
      rw [List.getElem?_eq_none (by omega)] at hi
      cases hi
    have hlt' : i < (URLasRegexp s u).mocks.length := by
      simpa [URLasRegexp] using hlt
    rw [List.getElem?_append_left hlt']
    simp only [URLasRegexp, List.getElem?_map, hi, Option.map_some', Option.some.injEq]
    unfold markAsRegexp
    rw [if_neg hne]

/-- C12 at a concrete registry: the rule for `http://fer/` is flagged, and a call to
`http://fer/jamon/pipi`, which is not the literal URL, resolves to its Response;
the rule for `http://api/x` stays as it was. -/
theorem URLasRegexp_pattern_mock_witness :
    searchMockCall sampleRegexp
        (URLasRegexp (AddMock ⟨[], [sampleMock], true⟩ "http://fer/" "GET" ""
          ⟨"artu", 200, none, false, false⟩ []) "http://fer/").mocks
        "GET" "http://fer/jamon/pipi" (getHeadersMap []) "" =
      some ⟨"artu", 200, none, false, false⟩ ∧
    (∀ (i : Nat) (mock : mockResponse),
      (⟨[], [sampleMock], true⟩ : State).mocks[i]? = some mock → mock.URL ≠ "http://fer/" →
      (URLasRegexp (AddMock ⟨[], [sampleMock], true⟩ "http://fer/" "GET" ""
        ⟨"artu", 200, none, false, false⟩ []) "http://fer/").mocks[i]? = some mock) :=
  URLasRegexp_pattern_mock sampleRegexp ⟨[], [sampleMock], true⟩ "http://fer/" "GET" "" []
    ⟨"artu", 200, none, false, false⟩ "http://fer/jamon/pipi" (by decide) (by decide)
    (by
      intro mock hmock
      have hm : mock = sampleMock := by simpa [URLasRegexp, markAsRegexp, sampleMock] using hmock
      rw [hm]
      intro happ
      have := happ.2.1
      revert this
      decide)

/-! ## The resolved URL -/

theorem containsChars_iff_infix (sub s : List Char) :
    containsChars sub s = true ↔ sub <:+: s := by
  induction s with
  | nil => simp [containsChars, List.isEmpty_iff]
  | cons c rest ih =>
    unfold containsChars
    rw [Bool.or_eq_true, ih, List.infix_cons_iff, List.isPrefixOf_iff_prefix]

theorem resolveURL_eq_prefixedURL (rclient : rClient) (callURL : String) :
    resolveURL rclient callURL = prefixedURL rclient.baseURL callURL := by
  unfold resolveURL prefixedURL stringsContains
  have h := containsChars_iff_infix rclient.baseURL.data callURL.data
  by_cases hc : containsChars rclient.baseURL.data callURL.data = true
  · have hi := h.1 hc
    simp [hc, hi]
  · have hi : ¬ rclient.baseURL.data <:+: callURL.data := fun hi => hc (h.2 hi)
    simp [hc, hi]

theorem finish_sent (nowStore : Int) (withCache : Bool) (key : String) (rclient : rClient)
    (pools : Pools) (cachedResponse : Option Response) (callURL : String) (sent : httpRequest)
    (rcResponse : Response) (error : Option GoError) (res : Result)
    (h : finish nowStore withCache key rclient pools cachedResponse callURL sent rcResponse error
      = .ok res) : res.sent = some sent := by
  unfold finish at h
  split at h
  · split at h
    · split at h
      · cases h
      · cases h
        rfl
    · split at h <;> cases h <;> rfl
  · cases h
    rfl

theorem performRequestSend_sent (env : Env) (withCache : Bool) (key : String) (rclient : rClient)
    (pools : Pools) (cachedResponse : Option Response) (method callURL body : String)
    (headers : GoMap String) (res : Result)
    (h : performRequestSend env withCache key rclient pools cachedResponse method callURL body
      headers = .ok res) :
    res.sent = none ∨ res.sent = some (requestFor method callURL body headers) := by
  unfold performRequestSend at h
  cases hreq : env.newRequest method callURL with
  | some e =>
    rw [hreq] at h
    cases h
    exact Or.inl rfl
  | none =>
    rw [hreq] at h
    simp only at h
    split at h
    · cases h
    · exact Or.inr (finish_sent _ _ _ _ _ _ _ _ _ _ _ h)

theorem performRequestLive_sent (env : Env) (key : String) (rclient : rClient) (pools : Pools)
    (method callURL body : String) (headers : GoMap String) (res : Result)
    (h : performRequestLive env key rclient pools method callURL body headers = .ok res) :
    res.sent = none ∨ res.sent = some (requestFor method callURL body headers) := by
  rw [performRequestLive_eq] at h
  split at h
  · split at h
    · cases h
      exact Or.inl rfl
    · exact performRequestSend_sent _ _ _ _ _ _ _ _ _ _ _ h
  · exact performRequestSend_sent _ _ _ _ _ _ _ _ _ _ _ h

/-- C13: for the pool that `getPool` selects, the URL `performRequest` works with is
`baseURL + callURL` when `baseURL` is not empty and not a substring of `callURL`,
and `callURL` otherwise.  It is the URL of the mock lookup, the URL of every
request that goes to the client, the key of the cache lookup, and the key under
which a 200 response is handed to `setResponseInCache`. -/
theorem performRequest_uses_prefixedURL (env : Env) (s : State)
    (method callURL body : String) (headers : GoMap String) (key : String) (rclient : rClient)
    (pools : Pools)
    (hpool : getPool env.regexpMatch env.mapOrder s.pools callURL = .ok (key, rclient, pools)) :
    resolveURL rclient callURL = prefixedURL rclient.baseURL callURL ∧
    (s.useMock = true → ∀ r,
      searchMockCall env.regexpMatch s.mocks method (prefixedURL rclient.baseURL callURL)
        headers body = some r →
      performRequest env s method callURL body headers = .ok ⟨some r, none, none, pools⟩) ∧
    (∀ res req, performRequest env s method callURL body headers = .ok res →
      res.sent = some req →
      req = requestFor method (prefixedURL rclient.baseURL callURL) body headers) ∧
    ((s.useMock = true →
        searchMockCall env.regexpMatch s.mocks method (prefixedURL rclient.baseURL callURL)
          headers body = none) →
      method = MethodGet → rclient.cache.isSome = true →
      (isLiveHit (cacheLookup rclient env.nowLookup (prefixedURL rclient.baseURL callURL))
          = true →
        performRequest env s method callURL body headers =
          .ok ⟨cacheLookup rclient env.nowLookup (prefixedURL rclient.baseURL callURL), none,
            none, assocInsert key (afterGet rclient (prefixedURL rclient.baseURL callURL))
              pools⟩) ∧
      (isLiveHit (cacheLookup rclient env.nowLookup (prefixedURL rclient.baseURL callURL))
          = false →
        env.newRequest method (prefixedURL rclient.baseURL callURL) = none →
        ∀ rcResponse error,
          classify
            (env.clientDo rclient.client
              (requestFor method (prefixedURL rclient.baseURL callURL) body headers)).1
            (env.clientDo rclient.client
              (requestFor method (prefixedURL rclient.baseURL callURL) body headers)).2
            = .ok (rcResponse, error) →
          rcResponse.Code = 200 →
          performRequest env s method callURL body headers =
            match setResponseInCache (afterGet rclient (prefixedURL rclient.baseURL callURL))
              env.nowStore rcResponse (prefixedURL rclient.baseURL callURL) with
            | .error p => .error p
            | .ok stored =>
              .ok ⟨some rcResponse, error,
                some (requestFor method (prefixedURL rclient.baseURL callURL) body headers),
                assocInsert key stored
                  (assocInsert key (afterGet rclient (prefixedURL rclient.baseURL callURL))
                    pools)⟩)) := by
  have hurl := resolveURL_eq_prefixedURL rclient callURL
  refine ⟨hurl, ?_, ?_, ?_⟩
  · intro huse r hfound
    rw [← hurl] at hfound
    unfold performRequest
    rw [hpool]
    simp only [huse, if_true, hfound]
  · intro res req hres hsent
    rw [← hurl]
    unfold performRequest at hres
    rw [hpool] at hres
    simp only at hres
    split at hres
    · cases hres
      cases hsent
    · rcases performRequestLive_sent _ _ _ _ _ _ _ _ _ hres with h | h
      · rw [h] at hsent
        cases hsent
      · rw [h] at hsent
        exact (Option.some.inj hsent).symm
  · intro hmock hget hcache
    subst hget
    rw [← hurl] at hmock ⊢
    have hlive := performRequest_unmocked env s MethodGet callURL body headers key rclient pools
      hpool hmock
    rw [hlive, performRequestLive_eq]
    simp only [hcache, and_self, if_true]
    constructor
    · intro hhit
      rw [if_pos hhit]
    · intro hmiss hreq rcResponse error hclass hcode
      rw [if_neg (by simp [hmiss])]
      unfold performRequestSend
      rw [hreq]
      simp only
      unfold requestFor at hclass
      have hclient : (afterGet rclient (resolveURL rclient callURL)).client = rclient.client := rfl
      rw [hclient, hclass]
      simp only
      unfold finish requestFor
      simp only [if_true, StatusOK, hcode]

/-- C13 at a concrete call: the pool registered for `/testing` has the base URL
`http://localhost:8080`, and the request for `/testing` goes to
`http://localhost:8080/testing`. -/
theorem performRequest_uses_prefixedURL_witness :
    resolveURL sampleBasePool "/testing" = prefixedURL sampleBasePool.baseURL "/testing" ∧
    (⟨"GET", "http://localhost:8080/testing", none, some []⟩ : httpRequest) =
      requestFor "GET" (prefixedURL sampleBasePool.baseURL "/testing") "" (some []) :=
  ⟨(performRequest_uses_prefixedURL (sampleEnv 0 (some ⟨200, some [], .ok "ok"⟩, none))
      ⟨[("/testing", sampleBasePool)], [], true⟩ "GET" "/testing" "" (some []) "/testing"
      sampleBasePool [("/testing", sampleBasePool)] (by decide)).1,
    (performRequest_uses_prefixedURL (sampleEnv 0 (some ⟨200, some [], .ok "ok"⟩, none))
      ⟨[("/testing", sampleBasePool)], [], true⟩ "GET" "/testing" "" (some []) "/testing"
      sampleBasePool [("/testing", sampleBasePool)] (by decide)).2.2.1
      ⟨some ⟨"ok", 200, some [], false, false⟩, none,
        some ⟨"GET", "http://localhost:8080/testing", none, some []⟩,
        [("/testing", sampleBasePool)]⟩
      ⟨"GET", "http://localhost:8080/testing", none, some []⟩ (by decide) rfl⟩

/-! ## Which calls change the cache -/

theorem assocInsert_assocInsert {α : Type} (k : String) (a b : α) (l : List (String × α)) :
    assocInsert k a (assocInsert k b l) = assocInsert k a l := by
  induction l with
  | nil => simp [assocInsert]
  | cons e rest ih =>
    obtain ⟨k', v'⟩ := e
    by_cases hk : k' = k
    · simp [assocInsert, hk]
    · simp [assocInsert, hk, ih]

theorem setResponseInCache_ok_cases (rclient : rClient) (now : Int) (response : Response)
    (callURL : String) (stored : rClient)
    (h : setResponseInCache rclient now response callURL = .ok stored) :
    stored = rclient ∨
      ∃ cacheControl value err, response.Headers.lookup "Cache-Control" = some cacheControl ∧
        getMaxAge cacheControl = .ok (value, err) ∧ 0 < value := by
  unfold setResponseInCache at h
  split at h
  · cases h
    exact Or.inl rfl
  · rename_i cacheControl hlookup
    split at h
    · cases h
    · rename_i value err hmax
      split at h
      · rename_i hpos
        exact Or.inr ⟨cacheControl, value, err, hlookup, hmax, hpos⟩
      · cases h
        exact Or.inl rfl

theorem performRequestSend_pools (env : Env) (withCache : Bool) (key : String) (rclient : rClient)
    (pools : Pools) (cachedResponse : Option Response) (method callURL body : String)
    (headers : GoMap String) (res : Result)
    (h : performRequestSend env withCache key rclient pools cachedResponse method callURL body
      headers = .ok res) :
    res.pools = pools ∨ (withCache = true ∧ res.pools = assocInsert key rclient pools) ∨
      (withCache = true ∧ ∃ stored rcResponse error cacheControl value err,
        res.pools = assocInsert key stored pools ∧
        classify (env.clientDo rclient.client (requestFor method callURL body headers)).1
          (env.clientDo rclient.client (requestFor method callURL body headers)).2
          = .ok (rcResponse, error) ∧
        rcResponse.Code = 200 ∧
        rcResponse.Headers.lookup "Cache-Control" = some cacheControl ∧
        getMaxAge cacheControl = .ok (value, err) ∧ 0 < value) := by
  unfold performRequestSend at h
  cases hreq : env.newRequest method callURL with
  | some e =>
    rw [hreq] at h
    cases h
    exact Or.inl rfl
  | none =>
    rw [hreq] at h
    simp only at h
    split at h
    · cases h
    · rename_i rcResponse error hclass
      unfold finish at h
      split at h
      · rename_i hwith
        split at h
        · rename_i hcode
          split at h
          · cases h
          · rename_i stored hstore
            cases h
            rcases setResponseInCache_ok_cases _ _ _ _ _ hstore with hsame | ⟨cc, v, e, h1, h2, h3⟩
            · rw [hsame]
              exact Or.inr (Or.inl ⟨hwith, rfl⟩)
            · exact Or.inr (Or.inr ⟨hwith, stored, rcResponse, error, cc, v, e, rfl, hclass,
                hcode, h1, h2, h3⟩)
        · split at h <;> cases h <;> exact Or.inl rfl
      · cases h
        exact Or.inl rfl

/-- The frame of `performRequest` on the registry, for a call that returns.  Either
the registry is the one pool selection left; or the call was a GET through a
pool with a cache and the pool is stored back after its lookup, with every
entry as it was; or a pool `stored` is written under the key, and then the call
was such a GET, no mock applied, no live entry was hit, the outcome of the
client was classified with Code 200, and `getMaxAge` read a positive value from
its Cache-Control values. -/
theorem performRequest_cache_frame (env : Env) (s : State)
    (method callURL body : String) (headers : GoMap String) (key : String) (rclient : rClient)
    (pools : Pools) (res : Result)
    (hpool : getPool env.regexpMatch env.mapOrder s.pools callURL = .ok (key, rclient, pools))
    (hres : performRequest env s method callURL body headers = .ok res) :
    res.pools = pools ∨
    (method = MethodGet ∧ rclient.cache.isSome = true ∧
      res.pools = assocInsert key (afterGet rclient (resolveURL rclient callURL)) pools ∧
      ∀ k, cachePeek (afterGet rclient (resolveURL rclient callURL)) k = cachePeek rclient k) ∨
    (method = MethodGet ∧ rclient.cache.isSome = true ∧
      (s.useMock = true →
        searchMockCall env.regexpMatch s.mocks method (resolveURL rclient callURL) headers body
          = none) ∧
      isLiveHit (cacheLookup rclient env.nowLookup (resolveURL rclient callURL)) = false ∧
      ∃ stored rcResponse error cacheControl value err,
        res.pools = assocInsert key stored pools ∧
        classify
          (env.clientDo rclient.client
            (requestFor method (resolveURL rclient callURL) body headers)).1
          (env.clientDo rclient.client
            (requestFor method (resolveURL rclient callURL) body headers)).2
          = .ok (rcResponse, error) ∧
        rcResponse.Code = 200 ∧
        rcResponse.Headers.lookup "Cache-Control" = some cacheControl ∧
        getMaxAge cacheControl = .ok (value, err) ∧ 0 < value) := by
  unfold performRequest at hres
  rw [hpool] at hres
  simp only at hres
  split at hres
  · cases hres
    exact Or.inl rfl
  · rename_i hmock
    have hmock' : s.useMock = true →
        searchMockCall env.regexpMatch s.mocks method (resolveURL rclient callURL) headers body
          = none := by
      intro huse
      simpa [huse] using hmock
    rw [performRequestLive_eq] at hres
    split at hres
    · rename_i hw
      have hsame := fun k => cachePeek_afterGet rclient (resolveURL rclient callURL) k
      split at hres
      · cases hres
        exact Or.inr (Or.inl ⟨hw.1, hw.2, rfl, hsame⟩)
      · rename_i hlive
        have hlive' : isLiveHit
            (cacheLookup rclient env.nowLookup (resolveURL rclient callURL)) = false := by
          simpa using hlive
        rcases performRequestSend_pools _ _ _ _ _ _ _ _ _ _ _ hres with h | ⟨_, h⟩ | ⟨_, h⟩
        · exact Or.inr (Or.inl ⟨hw.1, hw.2, h, hsame⟩)
        · rw [assocInsert_assocInsert] at h
          exact Or.inr (Or.inl ⟨hw.1, hw.2, h, hsame⟩)
        · obtain ⟨stored, rc, err, cc, v, e, h1, h2, h3, h4, h5, h6⟩ := h
          rw [assocInsert_assocInsert] at h1
          exact Or.inr (Or.inr ⟨hw.1, hw.2, hmock', hlive', stored, rc, err, cc, v, e, h1, h2,
            h3, h4, h5, h6⟩)
    · rcases performRequestSend_pools _ _ _ _ _ _ _ _ _ _ _ hres with h | ⟨hf, _⟩ | ⟨hf, _⟩
      · exact Or.inl h
      · cases hf
      · cases hf

/-- C14 fails through the first-value defect of `getMaxAge`: a GET through a pool
with a cache, answered at instant 150 with status 200 and the Cache-Control
values `s-maxage=7` and `max-age=0`, replaces the entry of the URL by one that
lives for seven seconds, although the `max-age` of the response is 0. -/
theorem performRequest_stores_without_positive_max_age :
    performRequest
        (sampleEnv 150
          (some ⟨200, some [("Cache-Control", ["s-maxage=7", "max-age=0"])], .ok "fresh"⟩, none))
        ⟨[("api", sampleCachingPool false)], [], true⟩ "GET" "http://api/x" "" (some [])
      = .ok ⟨some ⟨"fresh", 200, some [("Cache-Control", ["s-maxage=7", "max-age=0"])],
            false, false⟩, none,
          some ⟨"GET", "http://api/x", none, some []⟩,
          [("api", { sampleCachingPool false with cache := some ⟨2, [("http://api/x",
            ⟨"fresh", some [("Cache-Control", ["s-maxage=7", "max-age=0"])],
              7000000150⟩)]⟩ })]⟩ := by
  decide

/-! ## Idle-connection limit of a pool -/

/-- C15 fails for a PoolConfig whose MaxIdleConnsPerHost is zero or negative: the
pool that `AddCustomPool` stores gets the limit `http.DefaultMaxIdleConnsPerHost`,
which is 2, while the default pool gets `DEFAULT_MAX_IDLE_CONNECTIONS_PER_HOST`,
which is 100.  A positive MaxIdleConnsPerHost is taken over as claimed. -/
theorem AddCustomPool_idle_limit :
    (∀ (urlParse : String → Option String) (pools : Pools) (pattern : String)
        (config : PoolConfig),
      config.MaxIdleConnsPerHost ≤ 0 →
      (assocLookup pattern (AddCustomPool urlParse pools pattern config)).map
        (fun pool => pool.client.MaxIdleConnsPerHost) = some 2) ∧
    (∀ (urlParse : String → Option String) (pools : Pools) (pattern : String)
        (config : PoolConfig),
      0 < config.MaxIdleConnsPerHost →
      (assocLookup pattern (AddCustomPool urlParse pools pattern config)).map
        (fun pool => pool.client.MaxIdleConnsPerHost) = some config.MaxIdleConnsPerHost) ∧
    (assocLookup "/items/"
        (AddCustomPool (fun u => some u) [] "/items/" ⟨"http://items", 0, 0, "", 0, false⟩)).map
      (fun pool => pool.client.MaxIdleConnsPerHost) = some 2 ∧
    (initDefaultPool []).1.client.MaxIdleConnsPerHost = 100 ∧
    (assocLookup "default" (initDefaultPool []).2).map
      (fun pool => pool.client.MaxIdleConnsPerHost) = some 100 := by
  refine ⟨?_, ?_, by decide, by decide, by decide⟩
  · intro urlParse pools pattern config hle
    unfold AddCustomPool
    rw [assocLookup_assocInsert_self]
    have : ¬ config.MaxIdleConnsPerHost > 0 := by omega
    simp [newCustomPool, this, httpDefaultMaxIdleConnsPerHost]
  · intro urlParse pools pattern config hpos
    unfold AddCustomPool
    rw [assocLookup_assocInsert_self]
    simp [newCustomPool, hpos]

/-! ## Flags of the returned Response -/

theorem getPoolLoop_ne_nilDereference (regexpMatch : String → String → Option Bool)
    (callURL : String) (l : List (String × rClient)) :
    getPoolLoop regexpMatch callURL l ≠ .error .nilDereference := by
  induction l with
  | nil => simp [getPoolLoop]
  | cons e rest ih =>
    obtain ⟨pattern, pool⟩ := e
    unfold getPoolLoop
    split
    · simp
    · simp
    · exact ih

theorem getPool_ne_nilDereference (regexpMatch : String → String → Option Bool)
    (mapOrder : Pools → Pools) (pools : Pools) (callURL : String) :
    getPool regexpMatch mapOrder pools callURL ≠ .error .nilDereference := by
  unfold getPool
  split
  · rename_i p hp
    intro h
    cases h
    exact getPoolLoop_ne_nilDereference _ _ _ hp
  · simp
  · split <;> simp

theorem getMaxAgeLoop_ne_nilDereference (values rest : List String) :
    getMaxAgeLoop values rest ≠ .error .nilDereference := by
  induction rest with
  | nil => simp [getMaxAgeLoop]
  | cons value rest ih =>
    unfold getMaxAgeLoop
    split
    · split
      · simp
      · split <;> simp
    · exact ih

theorem setResponseInCache_ne_nilDereference (rclient : rClient) (now : Int)
    (response : Response) (callURL : String) (hcache : rclient.cache.isSome = true) :
    setResponseInCache rclient now response callURL ≠ .error .nilDereference := by
  obtain ⟨cache, hc⟩ := Option.isSome_iff_exists.1 hcache
  unfold setResponseInCache
  split
  · simp
  · split
    · rename_i p hp
      intro h
      cases h
      exact getMaxAgeLoop_ne_nilDereference _ _ hp
    · split
      · rw [hc]
        simp
      · simp

theorem classify_ok_of_contract (response : Option httpResponse) (error : Option GoError)
    (h : netHttpContract (response, error)) : ∃ v, classify response error = .ok v := by
  rcases h with ⟨hsome, herr⟩ | ⟨hnone, e, herr, hnot⟩ | ⟨hsome, herr⟩
  · simp only at hsome herr
    obtain ⟨resp, hresp⟩ := Option.isSome_iff_exists.1 hsome
    subst hresp herr
    unfold classify
    simp only [isNotFollowRedirect, Bool.false_eq_true, if_false, not_false_eq_true, if_true]
    cases resp.Body <;> exact ⟨_, rfl⟩
  · simp only at hnone herr
    subst hnone herr
    exact ⟨_, classify_error none e hnot⟩
  · simp only at hsome herr
    obtain ⟨resp, hresp⟩ := Option.isSome_iff_exists.1 hsome
    subst hresp herr
    exact ⟨_, classify_redirect resp⟩

theorem performRequestSend_ne_nilDereference (env : Env) (withCache : Bool) (key : String)
    (rclient : rClient) (pools : Pools) (cachedResponse : Option Response)
    (method callURL body : String) (headers : GoMap String)
    (hcontract : ∀ client request, netHttpContract (env.clientDo client request))
    (hcache : withCache = true → rclient.cache.isSome = true) :
    performRequestSend env withCache key rclient pools cachedResponse method callURL body
      headers ≠ .error .nilDereference := by
  unfold performRequestSend
  cases hreq : env.newRequest method callURL with
  | some e => simp
  | none =>
    simp only
    obtain ⟨v, hv⟩ := classify_ok_of_contract _ _
      (hcontract rclient.client
        ⟨method, callURL, if method = MethodPost ∨ method = MethodPut then some body else none,
          headers⟩)
    rw [hv]
    simp only
    unfold finish
    split
    · rename_i hwith
      split
      · split
        · rename_i p hp
          intro h
          cases h
          exact setResponseInCache_ne_nilDereference _ _ _ _ (hcache hwith) hp
        · simp
      · split <;> simp
    · simp

/-- C17: when every outcome of `client.Do` meets the contract of `net/http`,
`performRequest` never ends in a nil dereference, whatever the registry, the
mocks and the call; and the contract is needed, since on an outcome with the
redirect sentinel and no response the classification dereferences nil. -/
theorem performRequest_no_nil_dereference (env : Env) (s : State)
    (method callURL body : String) (headers : GoMap String)
    (hcontract : ∀ client request, netHttpContract (env.clientDo client request)) :
    performRequest env s method callURL body headers ≠ .error .nilDereference ∧
    (∀ response error, netHttpContract (response, error) →
      classify response error ≠ .error .nilDereference) ∧
    classify none (some (.urlError .notFollowRedirectError)) = .error .nilDereference ∧
    performRequest (sampleEnv 0 (none, some (.urlError .notFollowRedirectError)))
      ⟨[], [], true⟩ "GET" "http://a/" "" (some []) = .error .nilDereference := by
  refine ⟨?_, ?_, by decide, by decide⟩
  · unfold performRequest
    split
    · rename_i p hp
      intro h
      cases h
      exact getPool_ne_nilDereference _ _ _ _ hp
    · rename_i key rclient pools hpool
      simp only
      split
      · simp
      · rw [performRequestLive_eq]
        split
        · rename_i hw
          split
          · simp
          · apply performRequestSend_ne_nilDereference _ _ _ _ _ _ _ _ _ _ hcontract
            intro _
            have hsome : (afterGet rclient (resolveURL rclient callURL)).cache.isSome
                = rclient.cache.isSome := by
              unfold afterGet
              cases rclient.cache <;> rfl
            rw [hsome]
            exact hw.2
        · apply performRequestSend_ne_nilDereference _ _ _ _ _ _ _ _ _ _ hcontract
          intro h
          cases h
  · intro response error hc
    obtain ⟨v, hv⟩ := classify_ok_of_contract response error hc
    rw [hv]
    simp

/-- C17 at a concrete environment whose client always answers 200: the contract
holds and the call returns. -/
theorem performRequest_no_nil_dereference_witness :
    performRequest (sampleEnv 0 (some ⟨200, some [], .ok "ok"⟩, none))
        ⟨[("/testing", sampleBasePool)], [], true⟩ "GET" "/testing" "" (some [])
      ≠ .error .nilDereference ∧
    (∀ response error, netHttpContract (response, error) →
      classify response error ≠ .error .nilDereference) ∧
    classify none (some (.urlError .notFollowRedirectError)) = .error .nilDereference ∧
    performRequest (sampleEnv 0 (none, some (.urlError .notFollowRedirectError)))
      ⟨[], [], true⟩ "GET" "http://a/" "" (some []) = .error .nilDereference :=
  performRequest_no_nil_dereference (sampleEnv 0 (some ⟨200, some [], .ok "ok"⟩, none))
    ⟨[("/testing", sampleBasePool)], [], true⟩ "GET" "/testing" "" (some [])
    (fun _ _ => Or.inl ⟨rfl, rfl⟩)

/-! ## Pool selection: the theorem -/

theorem getPoolLoop_only_default (regexpMatch : String → String → Option Bool)
    (callURL : String) (d : rClient) (l : List (String × rClient))
    (hvalid : ∀ p ∈ l, regexpMatch p.1 callURL ≠ none)
    (hothers : ∀ p ∈ l, p.1 ≠ "default" → regexpMatch p.1 callURL ≠ some true)
    (hdefault : ∀ p ∈ l, p.1 = "default" → p.2 = d) :
    getPoolLoop regexpMatch callURL l = .ok none ∨
      getPoolLoop regexpMatch callURL l = .ok (some ("default", d)) := by
  induction l with
  | nil => exact Or.inl rfl
  | cons e rest ih =>
    obtain ⟨k, v⟩ := e
    have hrest := ih (fun p hp => hvalid p (List.mem_cons_of_mem _ hp))
      (fun p hp => hothers p (List.mem_cons_of_mem _ hp))
      (fun p hp => hdefault p (List.mem_cons_of_mem _ hp))
    have hv := hvalid (k, v) (List.mem_cons_self _ _)
    simp only at hv
    unfold getPoolLoop
    cases hm : regexpMatch k callURL with
    | none => exact absurd hm hv
    | some b =>
      cases b
      · exact hrest
      · simp only
        by_cases hk : k = "default"
        · have hd := hdefault (k, v) (List.mem_cons_self _ _) hk
          simp only at hd
          rw [hk, hd]
          exact Or.inr rfl
        · exact absurd hm (hothers (k, v) (List.mem_cons_self _ _) hk)

theorem getPool_default_present (regexpMatch : String → String → Option Bool)
    (mapOrder : Pools → Pools) (pools : Pools) (callURL : String) (d : rClient)
    (hperm : ∀ l, (mapOrder l).Perm l)
    (hnodup : (pools.map Prod.fst).Nodup)
    (hvalid : ∀ p ∈ pools, regexpMatch p.1 callURL ≠ none)
    (hothers : ∀ p ∈ pools, p.1 ≠ "default" → regexpMatch p.1 callURL ≠ some true)
    (hd : assocLookup "default" pools = some d) :
    getPool regexpMatch mapOrder pools callURL = .ok ("default", d, pools) := by
  have hmem : ("default", d) ∈ pools := assocLookup_some_mem _ _ _ hd
  have hloop := getPoolLoop_only_default regexpMatch callURL d (mapOrder pools)
    (fun p hp => hvalid p ((hperm pools).mem_iff.1 hp))
    (fun p hp => hothers p ((hperm pools).mem_iff.1 hp))
    (fun p hp hk => by
      have hp' : p ∈ pools := (hperm pools).mem_iff.1 hp
      have : p = ("default", d) := List.inj_on_of_nodup_map hnodup hp' hmem hk
      rw [this])
  unfold getPool
  rcases hloop with h | h
  · rw [h]
    simp only [hd]
  · rw [h]

/-- C10 (amended): for a registry whose keys all compile as regular expressions,
the keys being the patterns given to `AddCustomPool` and, once the default pool
is stored, its key `default`, and whatever order the map range visits them in:
a URL that exactly one key matches gets the pool stored under that key; a URL
that no key other than `default` matches gets the pool stored under `default`,
which is created and stored on first use, and every later call that no key other
than `default` matches gets that same stored pool. -/
theorem getPool_deterministic (regexpMatch : String → String → Option Bool)
    (mapOrder : Pools → Pools) (pools : Pools) (callURL : String)
    (hperm : ∀ l, (mapOrder l).Perm l)
    (hnodup : (pools.map Prod.fst).Nodup)
    (hvalid : ∀ p ∈ pools, regexpMatch p.1 callURL ≠ none) :
    (∀ pattern pool, (pattern, pool) ∈ pools → regexpMatch pattern callURL = some true →
      (∀ p ∈ pools, regexpMatch p.1 callURL = some true → p.1 = pattern) →
      getPool regexpMatch mapOrder pools callURL = .ok (pattern, pool, pools)) ∧
    ((∀ p ∈ pools, p.1 ≠ "default" → regexpMatch p.1 callURL ≠ some true) →
      (∀ d, assocLookup "default" pools = some d →
        getPool regexpMatch mapOrder pools callURL = .ok ("default", d, pools)) ∧
      (assocLookup "default" pools = none →
        getPool regexpMatch mapOrder pools callURL =
          .ok ("default", newDefaultPool, assocInsert "default" newDefaultPool pools) ∧
        ∀ laterURL,
          (∀ p ∈ assocInsert "default" newDefaultPool pools,
            regexpMatch p.1 laterURL ≠ none) →
          (∀ p ∈ assocInsert "default" newDefaultPool pools,
            p.1 ≠ "default" → regexpMatch p.1 laterURL ≠ some true) →
          getPool regexpMatch mapOrder (assocInsert "default" newDefaultPool pools) laterURL =
            .ok ("default", newDefaultPool, assocInsert "default" newDefaultPool pools))) := by
  have hfalse_of : ∀ p ∈ pools, regexpMatch p.1 callURL ≠ some true →
      regexpMatch p.1 callURL = some false := by
    intro p hp hne
    cases h : regexpMatch p.1 callURL with
    | none => exact absurd h (hvalid p hp)
    | some b =>
      cases b
      · rfl
      · exact absurd h hne
  constructor
  · intro pattern pool hmem hmatch hunique
    have hloop : getPoolLoop regexpMatch callURL (mapOrder pools) = .ok (some (pattern, pool)) := by
      apply getPoolLoop_unique regexpMatch callURL pattern pool _
        ((hperm pools).mem_iff.2 hmem) hmatch
      intro p hp hne
      have hp' : p ∈ pools := (hperm pools).mem_iff.1 hp
      apply hfalse_of p hp'
      intro htrue
      have hkey : p.1 = pattern := hunique p hp' htrue
      exact hne (List.inj_on_of_nodup_map hnodup hp' hmem hkey)
    unfold getPool
    rw [hloop]
  · intro hothers
    refine ⟨?_, ?_⟩
    · intro d hd
      exact getPool_default_present regexpMatch mapOrder pools callURL d hperm hnodup hvalid
        hothers hd
    · intro hd
      have hnokey : "default" ∉ pools.map Prod.fst := (assocLookup_eq_none_iff _ _).1 hd
      constructor
      · have hloop : getPoolLoop regexpMatch callURL (mapOrder pools) = .ok none := by
          apply getPoolLoop_none
          intro p hp
          have hp' : p ∈ pools := (hperm pools).mem_iff.1 hp
          apply hfalse_of p hp'
          apply hothers p hp'
          intro hk
          exact hnokey (List.mem_map.2 ⟨p, hp', hk⟩)
        unfold getPool
        rw [hloop]
        simp only [hd, initDefaultPool]
      · intro laterURL hvalid' hothers'
        exact getPool_default_present regexpMatch mapOrder _ laterURL newDefaultPool hperm
          (assocInsert_distinctKeys "default" newDefaultPool pools hnodup) hvalid' hothers'
          (assocLookup_assocInsert_self _ _ _)

/-- C10 (amended) at a concrete registry with the patterns `items` and `users`,
visited in reverse order: a URL that only `users` matches; a URL that no key
matches, for which the default pool is created; and a later URL that only the
key `default` matches, which gets that same pool. -/
theorem getPool_deterministic_witness :
    getPool sampleRegexp List.reverse
        [("items", sampleCachingPool false), ("users", sampleCachingPool true)]
        "http://api/users/1" =
      .ok ("users", sampleCachingPool true,
        [("items", sampleCachingPool false), ("users", sampleCachingPool true)]) ∧
    getPool sampleRegexp List.reverse
        [("items", sampleCachingPool false), ("users", sampleCachingPool true)]
        "http://other/" =
      .ok ("default", newDefaultPool, assocInsert "default" newDefaultPool
        [("items", sampleCachingPool false), ("users", sampleCachingPool true)]) ∧
    getPool sampleRegexp List.reverse (assocInsert "default" newDefaultPool
        [("items", sampleCachingPool false), ("users", sampleCachingPool true)])
        "http://else/default/" =
      .ok ("default", newDefaultPool, assocInsert "default" newDefaultPool
        [("items", sampleCachingPool false), ("users", sampleCachingPool true)]) :=
  ⟨(getPool_deterministic sampleRegexp List.reverse
      [("items", sampleCachingPool false), ("users", sampleCachingPool true)]
      "http://api/users/1" (fun l => List.reverse_perm l) (by decide) (by decide)).1
      "users" (sampleCachingPool true) (by decide) (by decide) (by decide),
    (((getPool_deterministic sampleRegexp List.reverse
      [("items", sampleCachingPool false), ("users", sampleCachingPool true)]
      "http://other/" (fun l => List.reverse_perm l) (by decide) (by decide)).2
      (by decide)).2 (by decide)).1,
    (((getPool_deterministic sampleRegexp List.reverse
      [("items", sampleCachingPool false), ("users", sampleCachingPool true)]
      "http://other/" (fun l => List.reverse_perm l) (by decide) (by decide)).2
      (by decide)).2 (by decide)).2 "http://else/default/" (by decide) (by decide)⟩

/-- C10 as stated fails in two ways.  A registered pattern that does not compile:
with `[` and `api` registered, exactly one pattern matches `http://api/x`, yet
`getPool` panics when the range visits `[` first and returns the pool of `api`
when it visits `api` first.  And the key `default`, which `initDefaultPool`
stores in the same map: once a call that nothing matches has created the
default pool, the URL `http://api/default/x`, which of the patterns given to
`AddCustomPool` only `api` matches, gets the pool of `api` in one order and the
default pool in the other. -/
theorem getPool_order_dependent_counterexample :
    sampleRegexp "api" "http://api/x" = some true ∧
    sampleRegexp "[" "http://api/x" = none ∧
    getPool sampleRegexp (fun pools => pools)
        [("[", newDefaultPool), ("api", sampleCachingPool false)] "http://api/x" =
      .error .regexpCompile ∧
    getPool sampleRegexp List.reverse
        [("[", newDefaultPool), ("api", sampleCachingPool false)] "http://api/x" =
      .ok ("api", sampleCachingPool false,
        [("[", newDefaultPool), ("api", sampleCachingPool false)]) ∧
    getPool sampleRegexp (fun pools => pools) [("api", sampleCachingPool false)]
        "http://other/" =
      .ok ("default", newDefaultPool,
        [("api", sampleCachingPool false), ("default", newDefaultPool)]) ∧
    getPool sampleRegexp (fun pools => pools)
        [("api", sampleCachingPool false), ("default", newDefaultPool)]
        "http://api/default/x" =
      .ok ("api", sampleCachingPool false,
        [("api", sampleCachingPool false), ("default", newDefaultPool)]) ∧
    getPool sampleRegexp List.reverse
        [("api", sampleCachingPool false), ("default", newDefaultPool)]
        "http://api/default/x" =
      .ok ("default", newDefaultPool,
        [("api", sampleCachingPool false), ("default", newDefaultPool)]) := by
  refine ⟨by decide, by decide, by decide, by decide, by decide, by decide, by decide⟩


end Restclient
